import Mathlib

/-!
Verification of the AnyMem retrieval core.

This file shallowly embeds the retrieval pipeline of the repository
(`ai_parts/retrieval/*.py`, `ai_parts/indexing/*.py`,
`ai_parts/core/image_captioner_qwen.py`) in Lean and proves properties of
the embedded definitions.  Scores are modelled as rationals, Python dicts
keyed by strings as insertion-ordered association lists, and external
collaborators (the vector store's kNN ranking, the BM25 ranking function,
the caption LLM, the filesystem) as explicit parameters or as small trace
types.
-/

unseal List.merge List.mergeSort

namespace AnyMem

/-- Mirrors `RetrievalResult` from `ai_parts/retrieval/base.py`.
Metadata (`Dict[str, Any]`) is modelled as an association list of string
keys and values, with Python-dict lookup semantics (first match). -/
structure RetrievalResult where
  doc_id : String
  memo_uid : String
  score : ℚ
  content : String
  metadata : List (String × String)
  source : String
deriving DecidableEq, Repr, Inhabited

/-- Mirrors `RetrievalQuery` from `ai_parts/retrieval/base.py`. -/
structure RetrievalQuery where
  query : String
  top_k : ℕ
  min_score : ℚ
  filters : Option (List (String × String))
deriving DecidableEq, Repr

/-- One filter pair `(k, v)` matches a metadata dict unless the dict
contains `k` with a value different from `v`; this is the loop body
`if key in r.metadata and r.metadata[key] != value: match = False`
of `BaseRetriever.filter_results` (`ai_parts/retrieval/base.py`). -/
def matchesFilterPair (metadata : List (String × String)) (kv : String × String) : Bool :=
  match metadata.lookup kv.1 with
  | none => true
  | some w => w == kv.2

/-- Mirrors `BaseRetriever.filter_results` (`ai_parts/retrieval/base.py`):
drop results with `score < min_score`, then drop results for which some
filter pair fails.  A `filters` value of `none` (Python `None`) applies no
metadata filtering; an empty dict also filters nothing (`if filters:`). -/
def filter_results (results : List RetrievalResult)
    (filters : Option (List (String × String))) (min_score : ℚ) :
    List RetrievalResult :=
  results.filter fun r =>
    decide (min_score ≤ r.score) &&
      (match filters with
       | none => true
       | some fs => fs.all (matchesFilterPair r.metadata))

/-- Python's stable `sorted(..., key=lambda x: x.score, reverse=True)`. -/
def sortByScoreDesc (l : List RetrievalResult) : List RetrievalResult :=
  l.mergeSort (fun a b => decide (b.score ≤ a.score))

/-- One step of the `seen` dict update in
`BaseRetriever.deduplicate_by_memo`: insert the result if its `memo_uid`
is unseen, otherwise replace the stored entry when the new score is
strictly higher.  Replacement keeps the key's dict position. -/
def dedupStep (seen : List RetrievalResult) (r : RetrievalResult) :
    List RetrievalResult :=
  match seen.find? (fun s => s.memo_uid == r.memo_uid) with
  | none => seen ++ [r]
  | some s =>
      if s.score < r.score then
        seen.map (fun t => if t.memo_uid == r.memo_uid then r else t)
      else seen

/-- Mirrors `BaseRetriever.deduplicate_by_memo`
(`ai_parts/retrieval/base.py`): keep the highest-scoring result per
`memo_uid`, then re-sort by score descending. -/
def deduplicate_by_memo (results : List RetrievalResult) : List RetrievalResult :=
  sortByScoreDesc (results.foldl dedupStep [])

/-- Results sorted by `score` in (non-strict) descending order. -/
def SortedDesc (l : List RetrievalResult) : Prop :=
  l.Pairwise (fun a b => b.score ≤ a.score)

/-- A concrete result whose metadata is empty (no `creator` key). -/
def orphanResult : RetrievalResult :=
  { doc_id := "doc1", memo_uid := "memos/X", score := 1, content := "c",
    metadata := [], source := "text" }

/-- Python dict assignment `d[k] = v` on an insertion-ordered association
list: overwrite in place when the key exists, else append. -/
def assocSet {β : Type} (l : List (String × β)) (k : String) (v : β) :
    List (String × β) :=
  match l.lookup k with
  | some _ => l.map (fun q => if q.1 = k then (q.1, v) else q)
  | none => l ++ [(k, v)]

/-- `rrf_scores[uid] = rrf_scores.get(uid, 0.0) + c` from `_rrf_fusion`
(`ai_parts/retrieval/hybrid.py` / `ai_parts/retrieval/fusion.py`). -/
def bumpScore (acc : List (String × ℚ)) (uid : String) (c : ℚ) :
    List (String × ℚ) :=
  assocSet acc uid ((acc.lookup uid).getD 0 + c)

/-- `if uid not in docs: docs[uid] = r` — keep the first-seen document. -/
def seenDoc (docs : List (String × RetrievalResult)) (r : RetrievalResult) :
    List (String × RetrievalResult) :=
  match docs.lookup r.memo_uid with
  | some _ => docs
  | none => docs ++ [(r.memo_uid, r)]

/-- The flattened iteration order of `_rrf_fusion`'s nested loops: every
`(result, weighted-contribution)` pair, where a result at 0-based rank `r`
in a list of weight `w` contributes `w * (1 / (k + r + 1))`. -/
def rrfContribs (k : ℚ) (lists : List (List RetrievalResult × ℚ)) :
    List (RetrievalResult × ℚ) :=
  lists.flatMap fun rw =>
    rw.1.enum.map fun p => (p.2, rw.2 * (1 / (k + (p.1 : ℚ) + 1)))

/-- Loop body of `_rrf_fusion`: results with an empty `memo_uid` are
skipped (`if not uid: continue`); otherwise the contribution is added to
the score dict and the document dict keeps the first-seen result. -/
def rrfStep (st : List (String × ℚ) × List (String × RetrievalResult))
    (p : RetrievalResult × ℚ) :
    List (String × ℚ) × List (String × RetrievalResult) :=
  if p.1.memo_uid = "" then st
  else (bumpScore st.1 p.1.memo_uid p.2, seenDoc st.2 p.1)

/-- Accumulated `(rrf_scores, docs)` dicts of `_rrf_fusion`. -/
def rrfState (k : ℚ) (lists : List (List RetrievalResult × ℚ)) :
    List (String × ℚ) × List (String × RetrievalResult) :=
  (rrfContribs k lists).foldl rrfStep ([], [])

/-- Python `min` on two rationals, written so that it kernel-reduces. -/
def ratMin (a b : ℚ) : ℚ := if a ≤ b then a else b

/-- Python `max` on two rationals, written so that it kernel-reduces. -/
def ratMax (a b : ℚ) : ℚ := if a ≤ b then b else a

/-- `scores.get(uid, 0.0)`-style read of a score dict. -/
def scoreOf (scores : List (String × ℚ)) (uid : String) : ℚ :=
  (scores.lookup uid).getD 0

/-- The common tail of every fusion routine:
`sorted_uids = sorted(scores.keys(), key=lambda x: scores[x], reverse=True)`
followed by `[docs[uid].model_copy(update={...}) for uid in sorted_uids]`.
`src = none` models an update of the score only; `src = some s` models the
variants that also overwrite `source` with `s`. -/
def finalizeFusion (scores : List (String × ℚ))
    (docs : List (String × RetrievalResult)) (src : Option String) :
    List RetrievalResult :=
  let sortedUids := (scores.map Prod.fst).mergeSort
    (fun a b => decide (scoreOf scores b ≤ scoreOf scores a))
  sortedUids.map fun uid =>
    let d := (docs.lookup uid).getD default
    let d' := { d with score := scoreOf scores uid }
    match src with
    | none => d'
    | some s => { d' with source := s }

/-- `RRFRetriever._rrf_fusion` (`ai_parts/retrieval/hybrid.py`): RRF over
weighted result lists; the fused result keeps the first-seen document's
fields with only the score replaced. -/
def rrf_fusion (k : ℚ) (lists : List (List RetrievalResult × ℚ)) :
    List RetrievalResult :=
  finalizeFusion (rrfState k lists).1 (rrfState k lists).2 none

/-- `BM25VectorFusionRetriever._rrf_fusion` (`ai_parts/retrieval/fusion.py`):
identical to `rrf_fusion` except the fused results' `source` is set to
`"fusion"`. -/
def rrf_fusion_bm25vec (k : ℚ) (lists : List (List RetrievalResult × ℚ)) :
    List RetrievalResult :=
  finalizeFusion (rrfState k lists).1 (rrfState k lists).2 (some "fusion")

/-- Default RRF constant: `k: int = 60` in `RRFRetriever.__init__` and
`rrf_k: int = 60` in `BM25VectorFusionRetriever.__init__`. -/
def rrfDefaultK : ℚ := 60

/-- Min-max normalization `_normalize_scores`, identical in
`WeightedRetriever`, `BM25VectorAlphaRetriever` and `AdaptiveRetriever`:
empty list unchanged; all-equal scores become `1.0`; otherwise
`(s - min) / (max - min)`. -/
def normalize_scores (results : List RetrievalResult) : List RetrievalResult :=
  match results with
  | [] => []
  | r0 :: rest =>
      let scores := (r0 :: rest).map (·.score)
      let mn := scores.foldl ratMin r0.score
      let mx := scores.foldl ratMax r0.score
      if mx = mn then (r0 :: rest).map (fun r => { r with score := 1 })
      else (r0 :: rest).map
        (fun r => { r with score := (r.score - mn) / (mx - mn) })

/-- `WeightedRetriever._weighted_fusion` (`ai_parts/retrieval/hybrid.py`).
The first loop assigns `scores[uid] = r.score * weight1` and
`docs[uid] = r` unconditionally; the second accumulates
`scores.get(uid, 0.0) + r.score * weight2` and keeps first-seen docs.
Results with an empty `memo_uid` are skipped (`if r.memo_uid:`). -/
def weighted_fusion (results1 : List RetrievalResult) (weight1 : ℚ)
    (results2 : List RetrievalResult) (weight2 : ℚ) : List RetrievalResult :=
  let st1 := results1.foldl (fun st r =>
    if r.memo_uid = "" then st
    else (assocSet st.1 r.memo_uid (r.score * weight1),
          assocSet st.2 r.memo_uid r)) ([], [])
  let st2 := results2.foldl (fun st r =>
    if r.memo_uid = "" then st
    else (assocSet st.1 r.memo_uid ((st.1.lookup r.memo_uid).getD 0 + r.score * weight2),
          seenDoc st.2 r)) st1
  finalizeFusion st2.1 st2.2 none

/-- `_alpha_fusion` of `BM25VectorAlphaRetriever` (`src = "fusion"`) and of
`AdaptiveRetriever` (`src = "adaptive"`), `ai_parts/retrieval/fusion.py`:
vector scores weighted by `alpha`, BM25 scores by `1 - alpha`. -/
def alpha_fusion (alpha : ℚ) (vector_results bm25_results : List RetrievalResult)
    (src : String) : List RetrievalResult :=
  let st1 := vector_results.foldl (fun st r =>
    if r.memo_uid = "" then st
    else (assocSet st.1 r.memo_uid (alpha * r.score),
          assocSet st.2 r.memo_uid r)) ([], [])
  let st2 := bm25_results.foldl (fun st r =>
    if r.memo_uid = "" then st
    else (assocSet st.1 r.memo_uid ((st.1.lookup r.memo_uid).getD 0 + (1 - alpha) * r.score),
          seenDoc st.2 r)) st1
  finalizeFusion st2.1 st2.2 (some src)

/-- Whitespace in the sense of Python's `str.split()` with no argument. -/
def pythonWs (c : Char) : Bool :=
  c == ' ' || c == '\t' || c == '\n' || c == '\r' || c == '\x0b' || c == '\x0c'

/-- Character-wise splitter: split on whitespace runs, dropping empties
(the behavior of Python's `str.split()`).  `cur` carries the current
token's characters in reverse. -/
def splitWsGo : List Char → List Char → List String
  | [], cur => if cur.isEmpty then [] else [String.mk cur.reverse]
  | c :: rest, cur =>
      if pythonWs c then
        if cur.isEmpty then splitWsGo rest []
        else String.mk cur.reverse :: splitWsGo rest []
      else splitWsGo rest (c :: cur)

/-- Python `query.split()`. -/
def pythonSplitWs (s : String) : List String :=
  splitWsGo s.toList []

/-- Python `str.lower()` (character-wise). -/
def pyLower (s : String) : String :=
  String.mk (s.toList.map Char.toLower)

/-- Python `str.startswith(pre)`. -/
def pyStartsWith (s pre : String) : Bool :=
  pre.toList.isPrefixOf s.toList

/-- Python `str.strip()` with no argument. -/
def pyTrim (s : String) : String :=
  String.mk (((s.toList.dropWhile (pythonWs ·)).reverse.dropWhile (pythonWs ·)).reverse)

/-- `raw.split(",", 1)[1]`: everything after the first comma. -/
def afterFirstComma (s : String) : String :=
  String.mk ((s.toList.dropWhile (· ≠ ',')).drop 1)

/-- `text.replace("\n", " ")`. -/
def replaceNewlines (s : String) : String :=
  String.mk (s.toList.map (fun c => if c = '\n' then ' ' else c))

/-- The special-character set of `AdaptiveRetriever._compute_alpha`
(`set("{}[]()<>=/\\|@#$%^&*`~")` in the source). -/
def specialQueryChars : List Char :=
  "{}[]()<>=/\\|@#$%^&*`~".toList

/-- `AdaptiveRetriever._compute_alpha` (`ai_parts/retrieval/fusion.py`):
start from `base_alpha`; `-0.2` when the query has at most 2
whitespace-separated tokens, `+0.15` when it has at least 8; `-0.25` when
any special character occurs; `-0.3` when a double quote (code point 34)
or single quote (39) occurs; clamp to `[0.1, 0.9]`. -/
def compute_alpha (base_alpha : ℚ) (query : String) : ℚ :=
  let words := pythonSplitWs query
  let alpha := base_alpha
  let alpha :=
    if words.length ≤ 2 then alpha - 0.2
    else if 8 ≤ words.length then alpha + 0.15
    else alpha
  let alpha :=
    if query.toList.any (fun c => specialQueryChars.contains c) then alpha - 0.25
    else alpha
  let alpha :=
    if query.toList.any (fun c => c.toNat == 34 || c.toNat == 39) then alpha - 0.3
    else alpha
  ratMax 0.1 (ratMin 0.9 alpha)

/-- Default base alpha: `base_alpha: float = 0.5` in
`AdaptiveRetriever.__init__`. -/
def adaptiveBaseAlpha : ℚ := 0.5

/-- An indexed node as stored in a vector store or the BM25 corpus:
id, text, metadata, and (for image documents) the image payload. -/
structure DocEntry where
  doc_id : String
  text : String
  metadata : List (String × String)
  image : String := ""
deriving DecidableEq, Repr, Inhabited

/-- An external ranking function (the vector store's kNN search /
LlamaIndex's BM25 ranking): given the current node corpus, a query string
and a fetch size, it returns scored nodes.  Its behavior is outside this
repository; theorems either quantify over it or constrain it to return
nodes of the corpus. -/
abbrev RankFn := List DocEntry → String → ℕ → List (DocEntry × ℚ)

/-- Conversion of a retrieved node to a `RetrievalResult`, as written in
each strategy's `retrieve`: `memo_uid = node.metadata.get("memo_uid", "")`. -/
def resultOfNode (src : String) (p : DocEntry × ℚ) : RetrievalResult :=
  { doc_id := p.1.doc_id,
    memo_uid := (p.1.metadata.lookup "memo_uid").getD "",
    score := p.2,
    content := p.1.text,
    metadata := p.1.metadata,
    source := src }

/-- `text: [node_id…], image: [node_id…]` manifest entry
(`IndexManager.memo_vector_map` values). -/
structure ManifestEntry where
  text : List String
  image : List String
deriving DecidableEq, Repr

/-- The mutable state of `IndexManager` plus the process-wide BM25 corpus
(`BM25Index._nodes`, a snapshot taken at build time and only replaced by
an explicit rebuild — `delete_memo` / `add_or_update_memo` never touch
it). -/
structure IndexState where
  textPersistDir : String
  textStore : List DocEntry
  imageStore : List DocEntry
  memo_vector_map : List (String × ManifestEntry)
  bm25Nodes : List DocEntry
deriving DecidableEq, Repr

/-- A filesystem side effect performed by the index manager. -/
inductive FsOp
  | writeFile (path content : String)
  | rename (src dst : String)
deriving DecidableEq, Repr

def FsOp.isRename : FsOp → Bool
  | .rename _ _ => true
  | _ => false

/-- Rendering of the manifest produced by
`json.dumps(self.memo_vector_map, ensure_ascii=False, indent=2)` —
the JSON library itself is external; this models its output as an
injective-enough textual rendering of the map. -/
def serializeManifest (m : List (String × ManifestEntry)) : String :=
  let renderList := fun (ids : List String) =>
    "[" ++ String.intercalate ", " (ids.map (fun i => "\"" ++ i ++ "\"")) ++ "]"
  let renderEntry := fun (p : String × ManifestEntry) =>
    "  \"" ++ p.1 ++ "\": \x7b\"text\": " ++ renderList p.2.text ++
      ", \"image\": " ++ renderList p.2.image ++ "\x7d"
  "\x7b\n" ++ String.intercalate ",\n" (m.map renderEntry) ++ "\n\x7d"

/-- `IndexManager._save_memo_vector_map`: the sequence of filesystem
operations performed by one persist of the manifest.  The source calls
`map_path.write_text(...)` on
`self.text_persist_dir / "memo_vector_map.json"` directly. -/
def save_memo_vector_map (textPersistDir : String)
    (m : List (String × ManifestEntry)) : List FsOp :=
  [FsOp.writeFile (textPersistDir ++ "/memo_vector_map.json") (serializeManifest m)]

/-- `IndexManager.delete_memo`: returns the new state, the
`(text_deleted, image_deleted)` counts, and the filesystem trace.
Unknown memos return `(0, 0)` untouched.  Per-id store deletions are
caught-and-logged in the source; they are modelled as succeeding, so the
counts equal the manifest entry's list lengths.  The BM25 corpus is not
touched. -/
def delete_memo (s : IndexState) (memo_uid : String) :
    IndexState × (ℕ × ℕ) × List FsOp :=
  match s.memo_vector_map.lookup memo_uid with
  | none => (s, (0, 0), [])
  | some entry =>
      let textStore' := s.textStore.filter (fun e => ¬ entry.text.contains e.doc_id)
      let imageStore' := s.imageStore.filter (fun e => ¬ entry.image.contains e.doc_id)
      let manifest' := s.memo_vector_map.eraseP (fun q => q.1 == memo_uid)
      ({ s with textStore := textStore', imageStore := imageStore',
                memo_vector_map := manifest' },
       (entry.text.length, entry.image.length),
       save_memo_vector_map s.textPersistDir manifest')

/-- The multimodal documents of one memo
(`MemoMultimodalDocs` in `ai_parts/indexing/memo_loader.py`). -/
structure MemoMultimodalDocs where
  base_doc : DocEntry
  image_docs : List DocEntry
  attachment_docs : List DocEntry
deriving DecidableEq, Repr

inductive UpsertErr
  | missingUid
  | insertFailed (doc_id : String)
deriving DecidableEq, Repr

/-- The `for doc in ...: index.insert(doc); ids.append(doc.doc_id)` loops
of `add_or_update_memo`.  `ok` tells whether embedding+insert of a given
document succeeds (an embedding failure raises in the source); on the
first failure the loop stops, leaving the documents inserted so far in
the store.  Returns (store, inserted ids, first failing id). -/
def insertDocs (store : List DocEntry) (docs : List DocEntry) (ok : String → Bool) :
    List DocEntry × List String × Option String :=
  match docs with
  | [] => (store, [], none)
  | d :: ds =>
      if ok d.doc_id then
        let r := insertDocs (store ++ [d]) ds ok
        (r.1, d.doc_id :: r.2.1, r.2.2)
      else (store, [], some d.doc_id)

/-- `IndexManager.add_or_update_memo`: extract `memo_uid` from the base
document's metadata (raising on a missing/empty uid); delete the existing
entry if present; insert base + attachment docs into the text store and
image docs into the image store; overwrite the manifest entry and persist
it.  An insert failure propagates, leaving already-inserted documents in
the store and the manifest unpersisted. -/
def add_or_update_memo (s : IndexState) (docs : MemoMultimodalDocs)
    (ok : String → Bool) :
    IndexState × Except UpsertErr (ℕ × ℕ) × List FsOp :=
  match docs.base_doc.metadata.lookup "memo_uid" with
  | none => (s, .error .missingUid, [])
  | some memo_uid =>
      if memo_uid = "" then (s, .error .missingUid, [])
      else
        let del := if (s.memo_vector_map.lookup memo_uid).isSome
          then delete_memo s memo_uid else (s, (0, 0), [])
        let s1 := del.1
        let ops1 := del.2.2
        let text_docs := docs.base_doc :: docs.attachment_docs
        let tins := insertDocs s1.textStore text_docs ok
        match tins.2.2 with
        | some d => ({ s1 with textStore := tins.1 }, .error (.insertFailed d), ops1)
        | none =>
            let iins := if docs.image_docs ≠ []
              then insertDocs s1.imageStore docs.image_docs ok
              else (s1.imageStore, [], none)
            match iins.2.2 with
            | some d =>
                ({ s1 with textStore := tins.1, imageStore := iins.1 },
                 .error (.insertFailed d), ops1)
            | none =>
                let manifest' := assocSet s1.memo_vector_map memo_uid
                  ⟨tins.2.1, iins.2.1⟩
                ({ s1 with textStore := tins.1, imageStore := iins.1,
                           memo_vector_map := manifest' },
                 .ok (tins.2.1.length, iins.2.1.length),
                 ops1 ++ save_memo_vector_map s1.textPersistDir manifest')

/-- `TextVectorRetriever.retrieve` (`ai_parts/retrieval/vector.py`):
over-fetch `top_k * 2` from the text store, convert, filter, dedup,
truncate. -/
def text_retrieve (s : IndexState) (rankText : RankFn) (q : RetrievalQuery) :
    List RetrievalResult :=
  let nodes := rankText s.textStore q.query (q.top_k * 2)
  let results := nodes.map (resultOfNode "text")
  (deduplicate_by_memo (filter_results results q.filters q.min_score)).take q.top_k

/-- `ImageVectorRetriever.retrieve` (`ai_parts/retrieval/vector.py`). -/
def image_retrieve (s : IndexState) (rankImage : RankFn) (q : RetrievalQuery) :
    List RetrievalResult :=
  let nodes := rankImage s.imageStore q.query (q.top_k * 2)
  let results := nodes.map (resultOfNode "image")
  (deduplicate_by_memo (filter_results results q.filters q.min_score)).take q.top_k

/-- `BM25Retriever.retrieve` (`ai_parts/retrieval/bm25.py`) together with
`BM25Index.retrieve`: empty-corpus index is not ready and yields `[]`;
otherwise the fetch size `top_k * 2` is clamped to the corpus size. -/
def bm25_retrieve (s : IndexState) (rankBM25 : RankFn) (q : RetrievalQuery) :
    List RetrievalResult :=
  if s.bm25Nodes.isEmpty then []
  else
    let fetch := min (q.top_k * 2) s.bm25Nodes.length
    let nodes := rankBM25 s.bm25Nodes q.query fetch
    let results := nodes.map (resultOfNode "bm25")
    (deduplicate_by_memo (filter_results results q.filters q.min_score)).take q.top_k

/-- `VectorRetriever.retrieve` (`ai_parts/retrieval/vector.py`): text and
image sub-retrievers each at `top_k` with the caller's filters/min_score,
concatenated, sorted by score descending, deduped, truncated. -/
def vector_retrieve (s : IndexState) (rankText rankImage : RankFn)
    (q : RetrievalQuery) : List RetrievalResult :=
  let text_results := text_retrieve s rankText q
  let image_results := image_retrieve s rankImage q
  let all := sortByScoreDesc (text_results ++ image_results)
  (deduplicate_by_memo all).take q.top_k

/-- `HybridRetriever.retrieve` (`ai_parts/retrieval/hybrid.py`):
sub-retrievers run without filters, filtering is applied after the
merge. -/
def hybrid_retrieve (s : IndexState) (rankText rankImage : RankFn)
    (q : RetrievalQuery) : List RetrievalResult :=
  let sub : RetrievalQuery :=
    { query := q.query, top_k := q.top_k, min_score := 0, filters := none }
  let text_results := text_retrieve s rankText sub
  let image_results := image_retrieve s rankImage sub
  let all := sortByScoreDesc (text_results ++ image_results)
  let all := filter_results all q.filters q.min_score
  (deduplicate_by_memo all).take q.top_k

/-- `RRFRetriever.retrieve` (`ai_parts/retrieval/hybrid.py`). -/
def rrf_retrieve (s : IndexState) (rankText rankImage : RankFn)
    (k text_weight image_weight : ℚ) (q : RetrievalQuery) :
    List RetrievalResult :=
  let sub : RetrievalQuery :=
    { query := q.query, top_k := q.top_k * 3, min_score := 0, filters := q.filters }
  let text_results := text_retrieve s rankText sub
  let image_results := image_retrieve s rankImage sub
  let fused := rrf_fusion k [(text_results, text_weight), (image_results, image_weight)]
  let fused := if 0 < q.min_score
    then fused.filter (fun r => decide (q.min_score ≤ r.score)) else fused
  fused.take q.top_k

/-- `WeightedRetriever.retrieve` (`ai_parts/retrieval/hybrid.py`). -/
def weighted_retrieve (s : IndexState) (rankText rankImage : RankFn)
    (text_weight image_weight : ℚ) (q : RetrievalQuery) :
    List RetrievalResult :=
  let sub : RetrievalQuery :=
    { query := q.query, top_k := q.top_k * 3, min_score := 0, filters := q.filters }
  let text_results := normalize_scores (text_retrieve s rankText sub)
  let image_results := normalize_scores (image_retrieve s rankImage sub)
  let fused := weighted_fusion text_results text_weight image_results image_weight
  let fused := if 0 < q.min_score
    then fused.filter (fun r => decide (q.min_score ≤ r.score)) else fused
  fused.take q.top_k

/-- `BM25VectorFusionRetriever.retrieve` (`ai_parts/retrieval/fusion.py`). -/
def bm25_vector_retrieve (s : IndexState) (rankText rankBM25 : RankFn)
    (rrf_k bm25_weight vector_weight : ℚ) (q : RetrievalQuery) :
    List RetrievalResult :=
  let sub : RetrievalQuery :=
    { query := q.query, top_k := q.top_k * 3, min_score := 0, filters := q.filters }
  let vector_results := text_retrieve s rankText sub
  let bm25_results := bm25_retrieve s rankBM25 sub
  let fused := rrf_fusion_bm25vec rrf_k
    [(vector_results, vector_weight), (bm25_results, bm25_weight)]
  let fused := if 0 < q.min_score
    then fused.filter (fun r => decide (q.min_score ≤ r.score)) else fused
  fused.take q.top_k

/-- `BM25VectorAlphaRetriever.retrieve` (`ai_parts/retrieval/fusion.py`);
the constructor clamps `alpha` to `[0, 1]`. -/
def bm25_vector_alpha_retrieve (s : IndexState) (rankText rankBM25 : RankFn)
    (alphaParam : ℚ) (q : RetrievalQuery) : List RetrievalResult :=
  let alpha := ratMax 0 (ratMin 1 alphaParam)
  let sub : RetrievalQuery :=
    { query := q.query, top_k := q.top_k * 3, min_score := 0, filters := q.filters }
  let vector_results := normalize_scores (text_retrieve s rankText sub)
  let bm25_results := normalize_scores (bm25_retrieve s rankBM25 sub)
  let fused := alpha_fusion alpha vector_results bm25_results "fusion"
  let fused := if 0 < q.min_score
    then fused.filter (fun r => decide (q.min_score ≤ r.score)) else fused
  fused.take q.top_k

/-- `AdaptiveRetriever.retrieve` (`ai_parts/retrieval/fusion.py`): the
alpha is computed from the query text. -/
def adaptive_retrieve (s : IndexState) (rankText rankBM25 : RankFn)
    (base_alpha : ℚ) (q : RetrievalQuery) : List RetrievalResult :=
  let alpha := compute_alpha base_alpha q.query
  let sub : RetrievalQuery :=
    { query := q.query, top_k := q.top_k * 3, min_score := 0, filters := q.filters }
  let vector_results := normalize_scores (text_retrieve s rankText sub)
  let bm25_results := normalize_scores (bm25_retrieve s rankBM25 sub)
  let fused := alpha_fusion alpha vector_results bm25_results "adaptive"
  let fused := if 0 < q.min_score
    then fused.filter (fun r => decide (q.min_score ≤ r.score)) else fused
  fused.take q.top_k

/-- An attachment as consumed by `ai_parts/indexing/memo_loader.py`.
`content` models the string form of the payload (the `bytes` form is
base64-encoded by the source before use and is modelled already
encoded). -/
structure Attachment where
  name : Option String
  filename : Option String
  type : Option String
  externalLink : Option String
  content : Option String
deriving DecidableEq, Repr

/-- The memo fields consumed by the document builder. -/
structure Memo where
  name : Option String
  id : Option String
  creator : Option String
  content : Option String
  createTime : Option String
  updateTime : Option String
  displayTime : Option String
  visibility : Option String
  pinned : Bool
  tags : List String
  aiTags : List String
  property : Option String
  attachments : List Attachment
deriving DecidableEq, Repr

/-- Builder configuration (`ai_parts/config.py` fields used by the
loader).  A zero numeric limit is falsy in Python (`if max_imgs and …`). -/
structure LoaderSettings where
  max_images : ℕ
  max_attachments : ℕ
  attachment_snippet_len : ℕ
  attachment_text_max_len : ℕ
  memos_base_url : Option String
  memos_session_cookie : String
deriving DecidableEq, Repr

/-- External collaborators of the loader: the base64/UTF-8 decoding of
`_maybe_decode_text`'s `try` block (`none` models an exception, `some`
the already-stripped decode result), the outcome of
`_fetch_image_from_url` per URL, and `urllib.parse.quote`. -/
structure LoaderExt where
  b64decode : String → Option String
  fetchImage : String → Option String
  urlQuote : String → String

/-- Python truthiness-based `x or y` on an optional string. -/
def optOr (x : Option String) (y : String) : String :=
  if x.getD "" ≠ "" then x.getD "" else y

/-- Python `f"...{x}..."` rendering of a possibly-`None` value. -/
def pyStr (x : Option String) : String :=
  x.getD "None"

/-- `_is_image` (`ai_parts/indexing/memo_loader.py`). -/
def isImageAtt (att : Attachment) : Bool :=
  pyStartsWith (pyLower (att.type.getD "")) "image/"

/-- `_is_text_like` (`ai_parts/indexing/memo_loader.py`). -/
def isTextLikeAtt (att : Attachment) : Bool :=
  let mime := pyLower (att.type.getD "")
  pyStartsWith mime "text/" || mime == "text/markdown" || mime == "application/markdown"

/-- `_maybe_decode_text`: strip a `data:<mime>,` prefix, attempt base64
decoding, fall back to the raw text unless it was a `data:` URL, reject
empty outcomes. -/
def maybe_decode_text (ext : LoaderExt) (raw : String) : Option String :=
  if raw = "" then none
  else
    let data_part :=
      if pyStartsWith raw "data:" && raw.toList.contains ',' then
        afterFirstComma raw
      else raw
    let fallback :=
      if pyStartsWith raw "data:" then none
      else if pyTrim raw ≠ "" then some (pyTrim raw) else none
    match ext.b64decode data_part with
    | some decoded => if decoded ≠ "" then some decoded else fallback
    | none => fallback

/-- `_attachment_text`: decoded body truncated to `max_len` with an
ellipsis marker. -/
def attachment_text (ext : LoaderExt) (att : Attachment) (max_len : ℕ) :
    Option String :=
  let raw := att.content.getD ""
  match maybe_decode_text ext raw with
  | none => none
  | some text =>
      if max_len ≠ 0 ∧ max_len < text.length then
        some ((text.take max_len) ++ "...")
      else some text

/-- `_attachment_preview`: compact single-line preview. -/
def attachment_preview (ext : LoaderExt) (att : Attachment) (max_len : ℕ) :
    String :=
  match attachment_text ext att max_len with
  | none => ""
  | some text =>
      let compact := pyTrim (replaceNewlines text)
      if max_len < compact.length then (compact.take max_len) ++ "..."
      else compact

/-- `_fetch_image_from_url` outcome for the memos-server URL of an
attachment, via the external fetch oracle (the body is converted to a
data URL by the source; the oracle returns that converted form). -/
def build_data_url (att : Attachment) (cfg : LoaderSettings) (ext : LoaderExt) :
    Option String :=
  if att.externalLink.getD "" ≠ "" then att.externalLink
  else if att.content.getD "" ≠ "" then
    let content := att.content.getD ""
    if pyStartsWith content "data:" then some content
    else
      let mime := optOr att.type "application/octet-stream"
      some ("data:" ++ mime ++ ";base64," ++ content)
  else
    if cfg.memos_base_url.getD "" ≠ "" ∧ att.name.getD "" ≠ "" ∧
        att.filename.getD "" ≠ "" then
      ext.fetchImage ((cfg.memos_base_url.getD "") ++ "/file/" ++
        (att.name.getD "") ++ "/" ++ ext.urlQuote (att.filename.getD ""))
    else none

/-- One line of `_build_attachment_block`. -/
def attachment_block_line (ext : LoaderExt) (snippet_len : ℕ) (count : ℕ)
    (att : Attachment) : String :=
  let att_type := pyLower (optOr att.type "unknown")
  let filename := optOr att.filename (optOr att.name "unknown")
  let preview := attachment_preview ext att snippet_len
  let line := toString count ++ ") type: " ++ att_type ++ ", filename: " ++ filename
  if preview ≠ "" then line ++ ", preview: " ++ preview else line

/-- The loop of `_build_attachment_block`: skip images, count the rest,
stop once the count exceeds `max_attachments` (when nonzero). -/
def attachment_block_lines (ext : LoaderExt) (max_attachments snippet_len : ℕ) :
    List Attachment → ℕ → List String
  | [], _ => []
  | att :: rest, count =>
      if isImageAtt att then attachment_block_lines ext max_attachments snippet_len rest count
      else
        let count := count + 1
        if max_attachments ≠ 0 ∧ max_attachments < count then []
        else attachment_block_line ext snippet_len count att ::
          attachment_block_lines ext max_attachments snippet_len rest count

/-- `_build_attachment_block`. -/
def build_attachment_block (ext : LoaderExt) (attachments : List Attachment)
    (max_attachments snippet_len : ℕ) : String :=
  String.intercalate "\n" (attachment_block_lines ext max_attachments snippet_len attachments 0)

/-- `_build_metadata`: the base document's metadata; `None` values are
dropped, joined-string and count fields are always present.  Non-string
scalars are carried as their string rendering. -/
def build_metadata (memo : Memo) (attachments_len : ℕ) : List (String × String) :=
  let opt := fun (k : String) (v : Option String) =>
    match v with
    | some s => [(k, s)]
    | none => ([] : List (String × String))
  opt "memo_uid" memo.name ++ opt "memo_id" memo.id ++
  opt "creator" memo.creator ++ opt "created_at" memo.createTime ++
  opt "updated_at" memo.updateTime ++ opt "display_time" memo.displayTime ++
  opt "visibility" memo.visibility ++
  [("pinned", if memo.pinned then "True" else "False")] ++
  [("tags", String.intercalate ", " memo.tags)] ++
  [("ai_tags", String.intercalate ", " (memo.aiTags.filter (· ≠ "")))] ++
  opt "properties" memo.property ++
  [("attachment_count", toString attachments_len), ("source", "memo")]

/-- Metadata attached to an image document by the loader (`None` values
are carried as empty strings in this model). -/
def image_doc_metadata (memo : Memo) (att : Attachment) : List (String × String) :=
  [("memo_uid", memo.name.getD ""), ("creator", memo.creator.getD ""),
   ("attachment_uid", att.name.getD ""), ("filename", att.filename.getD ""),
   ("type", att.type.getD "")]

/-- The image loop of `load_memo_to_llama_docs`: iterate attachments with
their index, skip non-images, break once `max_images` (when nonzero)
image docs exist, skip images with no resolvable payload, caption via the
optional caption function with fallback `filename or name or ""`. -/
def build_image_docs (memo : Memo) (cfg : LoaderSettings) (ext : LoaderExt)
    (captionFn : Option (String → List (String × String) → Option String)) :
    List Attachment → ℕ → ℕ → List DocEntry
  | [], _, _ => []
  | att :: rest, idx, haveImgs =>
      if ¬ isImageAtt att then
        build_image_docs memo cfg ext captionFn rest (idx + 1) haveImgs
      else if cfg.max_images ≠ 0 ∧ cfg.max_images ≤ haveImgs then []
      else
        match build_data_url att cfg ext with
        | none => build_image_docs memo cfg ext captionFn rest (idx + 1) haveImgs
        | some payload =>
            let caption := optOr att.filename (optOr att.name "")
            let caption :=
              match captionFn with
              | none => caption
              | some fn =>
                  match fn payload (image_doc_metadata memo att) with
                  | some c => if c ≠ "" then c else caption
                  | none => caption
            let doc : DocEntry :=
              { doc_id := "memo:" ++ pyStr memo.name ++ ":img:" ++ toString idx,
                text := caption,
                metadata := image_doc_metadata memo att,
                image := payload }
            doc :: build_image_docs memo cfg ext captionFn rest (idx + 1) (haveImgs + 1)

/-- The text-attachment loop of `load_memo_to_llama_docs`. -/
def build_attachment_docs (memo : Memo) (cfg : LoaderSettings) (ext : LoaderExt) :
    List Attachment → ℕ → List DocEntry
  | [], _ => []
  | att :: rest, idx =>
      if ¬ isTextLikeAtt att then build_attachment_docs memo cfg ext rest (idx + 1)
      else
        match attachment_text ext att cfg.attachment_text_max_len with
        | none => build_attachment_docs memo cfg ext rest (idx + 1)
        | some text =>
            let doc : DocEntry :=
              { doc_id := "memo:" ++ pyStr memo.name ++ ":att:" ++ toString idx,
                text := text,
                metadata := [("memo_uid", memo.name.getD ""),
                             ("creator", memo.creator.getD ""),
                             ("attachment_uid", att.name.getD ""),
                             ("filename", att.filename.getD ""),
                             ("type", att.type.getD ""),
                             ("source", "memo_attachment")] }
            doc :: build_attachment_docs memo cfg ext rest (idx + 1)

/-- `load_memo_to_llama_docs` (`ai_parts/indexing/memo_loader.py`). -/
def load_memo_to_llama_docs (memo : Memo) (cfg : LoaderSettings)
    (ext : LoaderExt)
    (captionFn : Option (String → List (String × String) → Option String)) :
    MemoMultimodalDocs :=
  let attachments := memo.attachments
  let content := (memo.content.getD "").trim
  let attachment_block :=
    build_attachment_block ext attachments cfg.max_attachments cfg.attachment_snippet_len
  let base_text :=
    if attachment_block ≠ "" then
      content ++ "\n\n[Attachments]\n" ++ attachment_block
    else content
  let base_doc : DocEntry :=
    { doc_id := "memo:" ++ optOr memo.name (memo.id.getD ""),
      text := base_text,
      metadata := build_metadata memo attachments.length }
  { base_doc := base_doc,
    image_docs := build_image_docs memo cfg ext captionFn attachments 0 0,
    attachment_docs := build_attachment_docs memo cfg ext attachments 0 }

/-- Parsed caption payload (`ImageCaption` in
`ai_parts/core/image_captioner_qwen.py`). -/
structure ImageCaption where
  type_summary : String
  visual_details : List String
  ocr : List String
  keywords : List String
deriving DecidableEq, Repr

/-- `_format_caption`: the fixed four-line rendering. -/
def format_caption (p : ImageCaption) : String :=
  let join := fun (items : List String) =>
    String.intercalate "; " (items.filter (· ≠ ""))
  String.intercalate "\n"
    ["1. 图片类型与摘要：" ++ p.type_summary,
     "2. 详细视觉内容：" ++ join p.visual_details,
     "3. 文字提取 (OCR)：" ++ join p.ocr,
     "4. 关键词提取：" ++ String.intercalate ", " (p.keywords.filter (· ≠ ""))]

/-- Outcome of the chat-completion call inside `generate_caption_async`
(`awaiting the Qwen VL provider is external). -/
inductive ProviderOutcome
  | ok (responseText : String)
  | err (msg : String)
deriving DecidableEq, Repr

/-- `generate_caption_async` (`ai_parts/core/image_captioner_qwen.py`):
without an API key the function returns `None`; a provider exception is
caught and yields `None`; a parse success yields the formatted caption,
a parse failure yields the raw response text.  `parse` models
`_parse_json_response` (JSON decoding is external). -/
def generate_caption_async (apiKeyConfigured : Bool)
    (parse : String → Option ImageCaption) (outcome : ProviderOutcome) :
    Option String :=
  if ¬ apiKeyConfigured then none
  else
    match outcome with
    | .err _ => none
    | .ok txt =>
        match parse txt with
        | some cap => some (format_caption cap)
        | none => some txt

/-- The adaptive-alpha rule as the spec words it: independent additive
adjustments (short-query, long-query, special characters, quotes) applied
to the base alpha, then clamped to `[0.1, 0.9]`.  Compared against
`compute_alpha`, which is translated from the source. -/
def alphaSpecAdjusted (base_alpha : ℚ) (query : String) : ℚ :=
  base_alpha
  + (if (pythonSplitWs query).length ≤ 2 then -0.2 else 0)
  + (if 8 ≤ (pythonSplitWs query).length then 0.15 else 0)
  + (if query.toList.any (fun c => specialQueryChars.contains c) then -0.25 else 0)
  + (if query.toList.any (fun c => c.toNat == 34 || c.toNat == 39) then -0.3 else 0)

/-- Clamped spec-side adaptive alpha. -/
def alphaSpecClamped (base_alpha : ℚ) (query : String) : ℚ :=
  ratMax 0.1 (ratMin 0.9 (alphaSpecAdjusted base_alpha query))

/-- The claim-side RRF score of a `memo_uid`: for each input list of
weight `w`, sum `w * 1/(k + r + 1)` over the 0-based ranks `r` at which
the uid appears; then sum across lists. -/
def rrfClaimScore (k : ℚ) (lists : List (List RetrievalResult × ℚ))
    (uid : String) : ℚ :=
  (lists.map (fun rw =>
    ((rw.1.enum.filter (fun p => p.2.memo_uid == uid)).map
      (fun p => rw.2 * (1 / (k + (p.1 : ℚ) + 1)))).sum)).sum

/-- Sum of the contributions for one uid in the flattened contribution
order. -/
def sumContribsFor (uid : String) (ps : List (RetrievalResult × ℚ)) : ℚ :=
  ((ps.filter (fun p => p.1.memo_uid == uid)).map Prod.snd).sum

/-- First result carrying `uid` in the fusion's iteration order. -/
def rrfFirstSeen (lists : List (List RetrievalResult × ℚ)) (uid : String) :
    Option RetrievalResult :=
  (lists.flatMap Prod.fst).find? (fun r => r.memo_uid == uid)

/-- Store/manifest wellformedness for one memo uid (spec invariants 1–3):
every store node whose `memo_uid` metadata names the memo is listed in
the memo's manifest entry. -/
def StoreWF (s : IndexState) (uid : String) : Prop :=
  (∀ e ∈ s.textStore, (e.metadata.lookup "memo_uid").getD "" = uid →
    ∃ ent, s.memo_vector_map.lookup uid = some ent ∧ e.doc_id ∈ ent.text) ∧
  (∀ e ∈ s.imageStore, (e.metadata.lookup "memo_uid").getD "" = uid →
    ∃ ent, s.memo_vector_map.lookup uid = some ent ∧ e.doc_id ∈ ent.image)

/-- An oracle is sound when every node it returns belongs to the corpus
it was given (the vector store / BM25 library searches its own index). -/
def SoundRank (rank : RankFn) : Prop :=
  ∀ store q n p, p ∈ rank store q n → p.1 ∈ store

/-- A concrete manifest with one memo. -/
def manifestA : List (String × ManifestEntry) :=
  [("memos/A", { text := ["memo:memos/A"], image := [] })]

/-- A concrete empty index state. -/
def emptyState : IndexState :=
  { textPersistDir := "base/text", textStore := [], imageStore := [],
    memo_vector_map := [], bm25Nodes := [] }

/-- A concrete text node of memo `memos/A`. -/
def nodeA : DocEntry :=
  { doc_id := "memo:memos/A", text := "柏拉图的《理想国》",
    metadata := [("memo_uid", "memos/A"), ("creator", "users/1")] }

/-- A concrete state in which `memos/A` is indexed and the BM25 corpus
holds its node. -/
def stateWithA : IndexState :=
  { textPersistDir := "base/text", textStore := [nodeA], imageStore := [],
    memo_vector_map := manifestA, bm25Nodes := [nodeA] }

/-- The multimodal docs of a re-upsert of `memos/A`. -/
def docsA : MemoMultimodalDocs :=
  { base_doc := { doc_id := "memo:memos/A", text := "new text",
                  metadata := [("memo_uid", "memos/A"), ("creator", "users/1")] },
    image_docs := [], attachment_docs := [] }

/-- A concrete sound ranking oracle: every corpus node with score 1, in
corpus order, truncated to the fetch size. -/
def constRank : RankFn :=
  fun store _ n => (store.map (fun e => (e, (1 : ℚ)))).take n

/-- A concrete query. -/
def queryA : RetrievalQuery :=
  { query := "柏拉图", top_k := 5, min_score := 0, filters := none }

/-- Concrete results for the RRF example (spec scenario S5). -/
def resX : RetrievalResult :=
  { doc_id := "dX", memo_uid := "X", score := 9, content := "cX",
    metadata := [("memo_uid", "X")], source := "text" }

def resY : RetrievalResult :=
  { doc_id := "dY", memo_uid := "Y", score := 8, content := "cY",
    metadata := [("memo_uid", "Y")], source := "text" }

def resZ : RetrievalResult :=
  { doc_id := "dZ", memo_uid := "Z", score := 7, content := "cZ",
    metadata := [("memo_uid", "Z")], source := "text" }

def resW : RetrievalResult :=
  { doc_id := "dW", memo_uid := "W", score := 6, content := "cW",
    metadata := [("memo_uid", "W")], source := "image" }

def resXb : RetrievalResult :=
  { doc_id := "dXb", memo_uid := "X", score := 5, content := "cXb",
    metadata := [("memo_uid", "X")], source := "image" }

def resYb : RetrievalResult :=
  { doc_id := "dYb", memo_uid := "Y", score := 4, content := "cYb",
    metadata := [("memo_uid", "Y")], source := "image" }

/-- The two weighted input lists of scenario S5:
A = [X, Y, Z] and B = [Y, X, W], both with weight 1. -/
def c6lists : List (List RetrievalResult × ℚ) :=
  [([resX, resY, resZ], 1), ([resYb, resXb, resW], 1)]

/-- A concrete image attachment with an external link and a filename. -/
def attW : Attachment :=
  { name := some "attachments/att1", filename := some "photo.png",
    type := some "image/png", externalLink := some "http://example.com/photo.png",
    content := none }

/-- A concrete memo holding one image attachment. -/
def memoW : Memo :=
  { name := some "memos/W", id := some "1", creator := some "users/1",
    content := some "hello", createTime := none, updateTime := none,
    displayTime := none, visibility := none, pinned := false, tags := [],
    aiTags := [], property := none, attachments := [attW] }

/-- Concrete loader settings. -/
def cfgW : LoaderSettings :=
  { max_images := 3, max_attachments := 5, attachment_snippet_len := 200,
    attachment_text_max_len := 4000, memos_base_url := none,
    memos_session_cookie := "" }

/-- Concrete loader externals (decoding and fetching always fail). -/
def extW : LoaderExt :=
  { b64decode := fun _ => none, fetchImage := fun _ => none,
    urlQuote := fun s => s }

/-- The delete phase at the start of `add_or_update_memo`: when the memo
is already in the manifest its old node set is deleted first. -/
def upsertDeletePhase (s : IndexState) (uid : String) : IndexState :=
  if (s.memo_vector_map.lookup uid).isSome then (delete_memo s uid).1 else s

theorem sortedDesc_sortByScoreDesc (l : List RetrievalResult) :
    SortedDesc (sortByScoreDesc l) := by
  unfold sortByScoreDesc SortedDesc
  refine List.Pairwise.imp (fun hab => by simpa using hab)
    (List.sorted_mergeSort ?_ ?_ l)
  · intro a b c hab hbc
    simp only [decide_eq_true_eq] at *
    exact le_trans hbc hab
  · intro a b
    simp only [Bool.or_eq_true, decide_eq_true_eq]
    exact le_total b.score a.score

theorem sortedDesc_filter (l : List RetrievalResult) (p : RetrievalResult → Bool)
    (h : SortedDesc l) : SortedDesc (l.filter p) :=
  List.Pairwise.filter p h

theorem sortedDesc_take (l : List RetrievalResult) (n : ℕ)
    (h : SortedDesc l) : SortedDesc (l.take n) :=
  List.Pairwise.sublist (List.take_sublist n l) h

theorem sortedDesc_dedup (l : List RetrievalResult) :
    SortedDesc (deduplicate_by_memo l) :=
  sortedDesc_sortByScoreDesc _

/-- C1: counterexample.  A result whose metadata lacks the filter key
`creator` passes `filter_results` with `filters = {creator: users/1}`,
so the metadata filter does not drop results with absent keys. -/
theorem C1_counterexample :
    filter_results [orphanResult] (some [("creator", "users/1")]) 0
      = [orphanResult]
    ∧ orphanResult.metadata.lookup "creator" = none := by
  exact ⟨rfl, rfl⟩

/-- C1 (amended): a result is kept by `filter_results` iff its score is at
least `min_score` and, for every filter pair `(k, v)`, its metadata either
lacks `k` or maps `k` to exactly `v`.  Results lacking a filter key are
kept, not dropped; consequently with `filters = {creator: c}` every kept
result either has `metadata["creator"] == c` or has no `creator` key. -/
theorem C1_filter_results_spec (r : RetrievalResult)
    (results : List RetrievalResult)
    (fs : List (String × String)) (min_score : ℚ) :
    r ∈ filter_results results (some fs) min_score ↔
      r ∈ results ∧ min_score ≤ r.score ∧
        ∀ kv ∈ fs, r.metadata.lookup kv.1 = none
          ∨ r.metadata.lookup kv.1 = some kv.2 := by
  simp only [filter_results, List.mem_filter, Bool.and_eq_true,
    decide_eq_true_eq, List.all_eq_true, and_assoc]
  constructor
  · rintro ⟨h1, h2, h3⟩
    refine ⟨h1, h2, fun kv hkv => ?_⟩
    have := h3 kv hkv
    unfold matchesFilterPair at this
    rcases hlk : r.metadata.lookup kv.1 with _ | w
    · exact Or.inl rfl
    · rw [hlk] at this
      simp only [beq_iff_eq] at this
      exact Or.inr (congrArg some this)
  · rintro ⟨h1, h2, h3⟩
    refine ⟨h1, h2, fun kv hkv => ?_⟩
    unfold matchesFilterPair
    rcases h3 kv hkv with h | h <;> rw [h] <;> simp

/-! Association-list helper lemmas (Python dict semantics). -/

theorem lookup_map_update {β : Type} (l : List (String × β)) (k : String) (v : β) :
    (l.map (fun q => if q.1 = k then (q.1, v) else q)).lookup k
      = (l.lookup k).map (fun _ => v) := by
  induction l with
  | nil => rfl
  | cons q t ih =>
      obtain ⟨a, b⟩ := q
      by_cases hq : a = k
      · subst hq
        simp [List.lookup_cons]
      · have hba : (k == a) = false := by simpa using Ne.symm hq
        simp [List.lookup_cons, hq, hba, ih]

theorem lookup_map_update_ne {β : Type} (l : List (String × β)) (k k' : String)
    (v : β) (h : k' ≠ k) :
    (l.map (fun q => if q.1 = k then (q.1, v) else q)).lookup k' = l.lookup k' := by
  induction l with
  | nil => rfl
  | cons q t ih =>
      obtain ⟨a, b⟩ := q
      by_cases hq : a = k
      · subst hq
        have hba : (k' == a) = false := by simpa using h
        simp [List.lookup_cons, hba, ih]
      · rcases hk' : (k' == a) with _ | _ <;> simp [List.lookup_cons, hq, hk', ih]

theorem lookup_assocSet_self {β : Type} (l : List (String × β)) (k : String) (v : β) :
    (assocSet l k v).lookup k = some v := by
  unfold assocSet
  rcases h : l.lookup k with _ | w
  · rw [List.lookup_append, h]
    simp
  · rw [lookup_map_update, h]
    rfl

theorem lookup_assocSet_ne {β : Type} (l : List (String × β)) (k k' : String)
    (v : β) (h : k' ≠ k) :
    (assocSet l k v).lookup k' = l.lookup k' := by
  unfold assocSet
  rcases hk : l.lookup k with _ | w
  · rw [List.lookup_append]
    rcases hk' : l.lookup k' with _ | w'
    · have hba : (k' == k) = false := by simpa using h
      simp [List.lookup_cons, hba]
    · rfl
  · exact lookup_map_update_ne l k k' v h

theorem keys_assocSet {β : Type} (l : List (String × β)) (k : String) (v : β) :
    (assocSet l k v).map Prod.fst
      = if (l.lookup k).isSome then l.map Prod.fst else l.map Prod.fst ++ [k] := by
  unfold assocSet
  rcases hk : l.lookup k with _ | w
  · simp
  · simp only [Option.isSome_some, if_true, List.map_map]
    congr 1
    funext q
    by_cases hq : q.1 = k <;> simp [hq]

theorem lookup_seenDoc (docs : List (String × RetrievalResult))
    (r : RetrievalResult) (uid : String) :
    (seenDoc docs r).lookup uid
      = (docs.lookup uid).or (if uid = r.memo_uid then some r else none) := by
  unfold seenDoc
  rcases h : docs.lookup r.memo_uid with _ | d
  · rw [List.lookup_append]
    by_cases hu : uid = r.memo_uid
    · subst hu
      rw [h]
      simp [List.lookup_cons]
    · simp only [if_neg hu]
      have hba : (uid == r.memo_uid) = false := by simpa using hu
      have : List.lookup uid [(r.memo_uid, r)] = none := by
        simp [List.lookup_cons, hba]
      rw [this]
  · by_cases hu : uid = r.memo_uid
    · subst hu
      simp [h]
    · simp only [if_neg hu]
      rcases docs.lookup uid with _ | w <;> rfl

/-! C4 — manifest persistence writes the file in place. -/

/-- C4: counterexample.  A persist of a concrete manifest writes the
serialized JSON directly to `memo_vector_map.json` and performs no
rename, so no write-temp-then-rename happens. -/
theorem C4_counterexample :
    FsOp.writeFile ("base/text" ++ "/memo_vector_map.json") (serializeManifest manifestA)
      ∈ save_memo_vector_map "base/text" manifestA
    ∧ ∀ op ∈ save_memo_vector_map "base/text" manifestA, op.isRename = false := by
  exact ⟨List.mem_singleton.mpr rfl, by decide⟩

/-- C4 (amended): every persist of the manifest is exactly one direct
write of the JSON serialization to `<text dir>/memo_vector_map.json`;
no temporary file and no rename are involved. -/
theorem C4_save_in_place (dir : String) (m : List (String × ManifestEntry)) :
    save_memo_vector_map dir m
      = [FsOp.writeFile (dir ++ "/memo_vector_map.json") (serializeManifest m)] := rfl

/-! C10 — deleting an unknown memo is a no-op. -/

/-- C10: for every memo uid absent from the manifest, `delete_memo`
returns `(0, 0)`, leaves the state (manifest, text store, image store,
BM25 corpus) unchanged, and performs no filesystem write. -/
theorem C10_delete_missing_noop (s : IndexState) (uid : String)
    (h : s.memo_vector_map.lookup uid = none) :
    delete_memo s uid = (s, (0, 0), []) := by
  unfold delete_memo
  rw [h]

/-- C10 witness at a concrete state. -/
theorem C10_delete_missing_noop_witness :
    emptyState.memo_vector_map.lookup "memos/Z" = none
    ∧ delete_memo emptyState "memos/Z" = (emptyState, (0, 0), []) :=
  ⟨rfl, C10_delete_missing_noop emptyState "memos/Z" rfl⟩

/-! C7 — adaptive alpha computation. -/

/-- C7: counterexample.  For the quoted short query `"exact phrase"` the
source computes alpha `0.5 - 0.2 (two tokens) - 0.3 (quote) = 0.0`,
clamped to `0.1` — not the claimed `0.2`. -/
theorem C7_counterexample :
    compute_alpha adaptiveBaseAlpha "\"exact phrase\"" = 0.1
    ∧ (0.1 : ℚ) ≠ 0.2 := by
  constructor
  · have h1 : ((pythonSplitWs "\"exact phrase\"").length ≤ 2) = True := by decide
    have h2 : ("\"exact phrase\"".toList.any fun c => specialQueryChars.contains c) = false := by
      decide
    have h3 : ("\"exact phrase\"".toList.any fun c => c.toNat == 34 || c.toNat == 39) = true := by
      decide
    simp only [compute_alpha, adaptiveBaseAlpha, h1, h2, h3, if_true, if_false,
      Bool.false_eq_true]
    norm_num [ratMin, ratMax]
  · norm_num

/-- C7 (amended): the adaptive alpha follows exactly the claimed additive
rule — base 0.5, −0.2 for ≤2 tokens, +0.15 for ≥8 tokens, −0.25 for
special characters, −0.3 for quotes, clamped to [0.1, 0.9] — and the
claimed example values hold with the quoted-query value corrected from
0.2 to 0.1 (the short-query penalty also applies):
alpha("bug") = 0.3, alpha(8-or-more-token plain query) = 0.65,
alpha(quoted two-token query) = 0.1. -/
theorem C7_compute_alpha_spec :
    (∀ base_alpha query, compute_alpha base_alpha query = alphaSpecClamped base_alpha query)
    ∧ compute_alpha adaptiveBaseAlpha "bug" = 0.3
    ∧ compute_alpha adaptiveBaseAlpha
        "explain how the scheduler coordinates background index updates across creators" = 0.65
    ∧ compute_alpha adaptiveBaseAlpha "\"exact phrase\"" = 0.1 := by
  refine ⟨fun base_alpha query => ?_, ?_, ?_, ?_⟩
  · simp only [compute_alpha, alphaSpecClamped, alphaSpecAdjusted]
    split_ifs <;> first | (exfalso; omega) | (congr 1; congr 1; ring)
  · have h1 : ((pythonSplitWs "bug").length ≤ 2) = True := by decide
    have h2 : ("bug".toList.any fun c => specialQueryChars.contains c) = false := by decide
    have h3 : ("bug".toList.any fun c => c.toNat == 34 || c.toNat == 39) = false := by decide
    simp only [compute_alpha, adaptiveBaseAlpha, h1, h2, h3, if_true, if_false,
      Bool.false_eq_true]
    norm_num [ratMin, ratMax]
  · have h1 : ((pythonSplitWs
        "explain how the scheduler coordinates background index updates across creators").length ≤ 2)
        = False := by decide
    have h1b : (8 ≤ (pythonSplitWs
        "explain how the scheduler coordinates background index updates across creators").length)
        = True := by decide
    have h2 : ("explain how the scheduler coordinates background index updates across creators".toList.any
        fun c => specialQueryChars.contains c) = false := by decide
    have h3 : ("explain how the scheduler coordinates background index updates across creators".toList.any
        fun c => c.toNat == 34 || c.toNat == 39) = false := by decide
    simp only [compute_alpha, adaptiveBaseAlpha, h1, h1b, h2, h3, if_true, if_false,
      Bool.false_eq_true]
    norm_num [ratMin, ratMax]
  · have h1 : ((pythonSplitWs "\"exact phrase\"").length ≤ 2) = True := by decide
    have h2 : ("\"exact phrase\"".toList.any fun c => specialQueryChars.contains c) = false := by
      decide
    have h3 : ("\"exact phrase\"".toList.any fun c => c.toNat == 34 || c.toNat == 39) = true := by
      decide
    simp only [compute_alpha, adaptiveBaseAlpha, h1, h2, h3, if_true, if_false,
      Bool.false_eq_true]
    norm_num [ratMin, ratMax]

/-! Index-manager helper lemmas. -/

theorem insertDocs_all_ok (ds : List DocEntry) (store : List DocEntry)
    (ok : String → Bool) (h : ∀ d ∈ ds, ok d.doc_id = true) :
    insertDocs store ds ok = (store ++ ds, ds.map (fun d => d.doc_id), none) := by
  induction ds generalizing store with
  | nil => simp [insertDocs]
  | cons d t ih =>
      have hd : ok d.doc_id = true := h d (by simp)
      have ht : ∀ x ∈ t, ok x.doc_id = true := fun x hx => h x (by simp [hx])
      simp [insertDocs, hd, ih (store ++ [d]) ht]

theorem lookup_eraseP_self {β : Type} (l : List (String × β)) (k : String)
    (h : (l.map Prod.fst).Nodup) :
    (l.eraseP (fun q => q.1 == k)).lookup k = none := by
  induction l with
  | nil => rfl
  | cons p t ih =>
      obtain ⟨a, b⟩ := p
      simp only [List.map_cons, List.nodup_cons] at h
      by_cases ha : a = k
      · subst ha
        rw [List.eraseP_cons_of_pos (by simp)]
        rw [List.lookup_eq_none_iff]
        intro q hq
        have : q.1 ∈ t.map Prod.fst := List.mem_map_of_mem Prod.fst hq
        have hne : q.1 ≠ a := fun he => h.1 (he ▸ this)
        simpa using fun he => hne he.symm
      · rw [List.eraseP_cons_of_neg (by simpa using ha)]
        have hba : (k == a) = false := by simpa using fun he => ha he.symm
        simp [List.lookup_cons, hba, ih h.2]

theorem eraseP_append_key {β : Type} (l : List (String × β)) (k : String) (v : β)
    (h : ∀ p ∈ l, p.1 ≠ k) :
    (l ++ [(k, v)]).eraseP (fun q => q.1 == k) = l := by
  induction l with
  | nil => simp [List.eraseP_cons_of_pos]
  | cons p t ih =>
      have hp : p.1 ≠ k := h p (by simp)
      rw [List.cons_append, List.eraseP_cons_of_neg (by simpa using hp)]
      rw [ih (fun q hq => h q (by simp [hq]))]

/-! C3 — failed upsert and the manifest. -/

/-- C3: counterexample.  Upserting an already-indexed memo first deletes
the old entry (persisting that removal); a subsequent embedding/insert
failure propagates, leaving the manifest changed — it lost the memo's
entry — contradicting "the manifest after the failed upsert equals the
manifest before it". -/
theorem C3_counterexample :
    (add_or_update_memo stateWithA docsA (fun _ => false)).2.1
        = .error (.insertFailed "memo:memos/A")
    ∧ (add_or_update_memo stateWithA docsA (fun _ => false)).1.memo_vector_map = []
    ∧ stateWithA.memo_vector_map = manifestA
    ∧ manifestA ≠ [] := by
  refine ⟨rfl, rfl, rfl, by decide⟩

/-- C3 (amended): an insert/embedding failure during upsert propagates to
the caller, and no new manifest entry is persisted: when the memo was not
previously indexed the in-memory manifest is unchanged and no manifest
file write is performed.  (When the memo was previously indexed, its old
entry has already been removed and persisted by the delete phase before
the failure — see the counterexample.) -/
theorem C3_upsert_fail_preserves_manifest (s : IndexState)
    (docs : MemoMultimodalDocs) (ok : String → Bool) (uid : String) (e : UpsertErr)
    (h1 : docs.base_doc.metadata.lookup "memo_uid" = some uid)
    (h2 : s.memo_vector_map.lookup uid = none)
    (h3 : (add_or_update_memo s docs ok).2.1 = .error e) :
    (add_or_update_memo s docs ok).1.memo_vector_map = s.memo_vector_map
    ∧ (add_or_update_memo s docs ok).2.2 = [] := by
  unfold add_or_update_memo at h3 ⊢
  rw [h1] at h3 ⊢
  by_cases hu : uid = ""
  · simp [hu]
  · simp only [if_neg hu] at h3 ⊢
    rw [h2] at h3 ⊢
    simp only [Option.isSome_none, Bool.false_eq_true, if_false] at h3 ⊢
    rcases htx : (insertDocs s.textStore (docs.base_doc :: docs.attachment_docs) ok).2.2
      with _ | d
    · simp only [htx] at h3 ⊢
      rcases him : (if docs.image_docs ≠ []
          then insertDocs s.imageStore docs.image_docs ok
          else (s.imageStore, [], none)).2.2 with _ | d'
      · simp only [him] at h3
        exact absurd h3 (by simp)
      · simp only [him] at h3 ⊢
        exact ⟨trivial, trivial⟩
    · simp only [htx] at h3 ⊢
      exact ⟨trivial, trivial⟩

/-- C3 witness: a concrete fresh memo whose insert fails — the error
propagates and the manifest (and its file) are untouched. -/
theorem C3_upsert_fail_witness :
    docsA.base_doc.metadata.lookup "memo_uid" = some "memos/A"
    ∧ emptyState.memo_vector_map.lookup "memos/A" = none
    ∧ (add_or_update_memo emptyState docsA (fun _ => false)).2.1
        = .error (.insertFailed "memo:memos/A")
    ∧ ((add_or_update_memo emptyState docsA (fun _ => false)).1.memo_vector_map
          = emptyState.memo_vector_map
        ∧ (add_or_update_memo emptyState docsA (fun _ => false)).2.2 = []) :=
  ⟨rfl, rfl, rfl,
    C3_upsert_fail_preserves_manifest emptyState docsA (fun _ => false) "memos/A"
      (.insertFailed "memo:memos/A") rfl rfl rfl⟩

theorem add_or_update_memo_success (s : IndexState) (docs : MemoMultimodalDocs)
    (ok : String → Bool) (uid : String)
    (h1 : docs.base_doc.metadata.lookup "memo_uid" = some uid)
    (h2 : uid ≠ "")
    (hok : ∀ d ∈ docs.base_doc :: (docs.attachment_docs ++ docs.image_docs),
      ok d.doc_id = true)
    (hlk : (upsertDeletePhase s uid).memo_vector_map.lookup uid = none) :
    (add_or_update_memo s docs ok).1 =
      { textPersistDir := (upsertDeletePhase s uid).textPersistDir,
        textStore := (upsertDeletePhase s uid).textStore
          ++ (docs.base_doc :: docs.attachment_docs),
        imageStore := (upsertDeletePhase s uid).imageStore ++ docs.image_docs,
        memo_vector_map := (upsertDeletePhase s uid).memo_vector_map
          ++ [(uid, { text := (docs.base_doc :: docs.attachment_docs).map (fun d => d.doc_id),
                      image := docs.image_docs.map (fun d => d.doc_id) })],
        bm25Nodes := (upsertDeletePhase s uid).bm25Nodes } := by
  have hokt : ∀ d ∈ docs.base_doc :: docs.attachment_docs, ok d.doc_id = true := by
    intro d hd
    apply hok
    simp only [List.mem_cons, List.mem_append] at hd ⊢
    tauto
  have hoki : ∀ d ∈ docs.image_docs, ok d.doc_id = true := by
    intro d hd
    apply hok
    simp only [List.mem_cons, List.mem_append]
    tauto
  by_cases hs : (s.memo_vector_map.lookup uid).isSome
  · have hup : upsertDeletePhase s uid = (delete_memo s uid).1 := by
      unfold upsertDeletePhase
      rw [if_pos hs]
    rw [hup] at hlk ⊢
    simp only [add_or_update_memo, h1, if_neg h2, hs, if_true,
      insertDocs_all_ok _ _ _ hokt, insertDocs_all_ok _ _ _ hoki]
    by_cases hi : docs.image_docs = []
    · simp only [hi, ne_eq, not_true_eq_false, if_false, List.append_nil, List.map_nil,
        assocSet, hlk]
    · simp only [hi, ne_eq, not_false_eq_true, if_true, assocSet, hlk]
  · have hs' : (s.memo_vector_map.lookup uid).isSome = false :=
      Bool.eq_false_iff.mpr hs
    have hup : upsertDeletePhase s uid = s := by
      unfold upsertDeletePhase
      rw [hs']
      rfl
    rw [hup] at hlk ⊢
    simp only [add_or_update_memo, h1, if_neg h2, hs', Bool.false_eq_true, if_false,
      insertDocs_all_ok _ _ _ hokt, insertDocs_all_ok _ _ _ hoki]
    by_cases hi : docs.image_docs = []
    · simp only [hi, ne_eq, not_true_eq_false, if_false, List.append_nil, List.map_nil,
        assocSet, hlk]
    · simp only [hi, ne_eq, not_false_eq_true, if_true, assocSet, hlk]

theorem upsert_entry_lookup (sd : IndexState) (uid : String) (E : ManifestEntry)
    (hlk : sd.memo_vector_map.lookup uid = none) :
    (sd.memo_vector_map ++ [(uid, E)]).lookup uid = some E := by
  rw [List.lookup_append, hlk]
  simp

theorem upsertDeletePhase_eq_of_isSome (s : IndexState) (uid : String)
    (h : (s.memo_vector_map.lookup uid).isSome = true) :
    upsertDeletePhase s uid = (delete_memo s uid).1 := by
  unfold upsertDeletePhase
  rw [if_pos h]

theorem upsert_then_delete (sd : IndexState) (docs : MemoMultimodalDocs)
    (uid : String)
    (hlk : sd.memo_vector_map.lookup uid = none)
    (htext : ∀ e ∈ sd.textStore,
      e.doc_id ∉ (docs.base_doc :: docs.attachment_docs).map (fun d => d.doc_id))
    (himg : ∀ e ∈ sd.imageStore,
      e.doc_id ∉ docs.image_docs.map (fun d => d.doc_id)) :
    (delete_memo
      { textPersistDir := sd.textPersistDir,
        textStore := sd.textStore ++ (docs.base_doc :: docs.attachment_docs),
        imageStore := sd.imageStore ++ docs.image_docs,
        memo_vector_map := sd.memo_vector_map
          ++ [(uid, { text := (docs.base_doc :: docs.attachment_docs).map (fun d => d.doc_id),
                      image := docs.image_docs.map (fun d => d.doc_id) })],
        bm25Nodes := sd.bm25Nodes } uid).1 = sd := by
  unfold delete_memo
  simp only [upsert_entry_lookup sd uid _ hlk]
  have hkeysne : ∀ p ∈ sd.memo_vector_map, p.1 ≠ uid := by
    intro p hp
    have := List.lookup_eq_none_iff.mp hlk p hp
    simpa using fun he => (by simpa [he] using this)
  have htks : sd.textStore.filter
      (fun e => decide ¬ (((docs.base_doc :: docs.attachment_docs).map (fun d => d.doc_id)).contains e.doc_id = true))
      = sd.textStore := by
    rw [List.filter_eq_self]
    intro e he
    simpa using htext e he
  have hiks : sd.imageStore.filter
      (fun e => decide ¬ ((docs.image_docs.map (fun d => d.doc_id)).contains e.doc_id = true))
      = sd.imageStore := by
    rw [List.filter_eq_self]
    intro e he
    simpa using himg e he
  have hselft : (docs.base_doc :: docs.attachment_docs).filter
      (fun e => decide ¬ (((docs.base_doc :: docs.attachment_docs).map (fun d => d.doc_id)).contains e.doc_id = true))
      = [] := by
    rw [List.filter_eq_nil_iff]
    intro d hd
    simp only [decide_not, Bool.not_not, List.elem_eq_mem, List.mem_map, decide_eq_true_eq,
      not_not, Bool.not_eq_true', decide_eq_false_iff_not, not_exists, not_and, not_forall]
    exact ⟨d, hd, rfl⟩
  have hselfi : docs.image_docs.filter
      (fun e => decide ¬ ((docs.image_docs.map (fun d => d.doc_id)).contains e.doc_id = true))
      = [] := by
    rw [List.filter_eq_nil_iff]
    intro d hd
    simp only [decide_not, Bool.not_not, List.elem_eq_mem, List.mem_map, decide_eq_true_eq,
      not_not, Bool.not_eq_true', decide_eq_false_iff_not, not_exists, not_and, not_forall]
    exact ⟨d, hd, rfl⟩
  rw [List.filter_append, List.filter_append, htks, hiks, hselft, hselfi,
    eraseP_append_key _ _ _ hkeysne, List.append_nil, List.append_nil]

/-- C5: applying `add_or_update_memo` twice in succession with the same
documents yields the same index state (manifest, both stores, BM25 corpus)
as applying it once; with a deterministic embedding provider all
observations (queries, manifest file content) therefore coincide.
Hypotheses: the base document carries the memo uid; all inserts succeed;
manifest keys are unique; and the store holds no stray copies of the
memo's node ids beyond those its manifest entry lists (spec invariants
2–3). -/
theorem C5_upsert_idempotent (s : IndexState) (docs : MemoMultimodalDocs)
    (ok : String → Bool) (uid : String)
    (h1 : docs.base_doc.metadata.lookup "memo_uid" = some uid)
    (h2 : uid ≠ "")
    (hok : ∀ d ∈ docs.base_doc :: (docs.attachment_docs ++ docs.image_docs),
      ok d.doc_id = true)
    (hkeys : (s.memo_vector_map.map Prod.fst).Nodup)
    (htext : ∀ e ∈ (upsertDeletePhase s uid).textStore,
      e.doc_id ∉ (docs.base_doc :: docs.attachment_docs).map (fun d => d.doc_id))
    (himg : ∀ e ∈ (upsertDeletePhase s uid).imageStore,
      e.doc_id ∉ docs.image_docs.map (fun d => d.doc_id)) :
    (add_or_update_memo (add_or_update_memo s docs ok).1 docs ok).1
      = (add_or_update_memo s docs ok).1 := by
  have hlk : (upsertDeletePhase s uid).memo_vector_map.lookup uid = none := by
    unfold upsertDeletePhase
    by_cases hs : (s.memo_vector_map.lookup uid).isSome
    · rw [if_pos hs]
      rcases ho : s.memo_vector_map.lookup uid with _ | ent
      · rw [ho] at hs
        simp at hs
      · unfold delete_memo
        simp only [ho]
        exact lookup_eraseP_self _ _ hkeys
    · rw [if_neg hs]
      exact Option.not_isSome_iff_eq_none.mp hs
  have hS1 := add_or_update_memo_success s docs ok uid h1 h2 hok hlk
  rw [hS1]
  have hsome1 : ((
      ({ textPersistDir := (upsertDeletePhase s uid).textPersistDir,
         textStore := (upsertDeletePhase s uid).textStore
           ++ (docs.base_doc :: docs.attachment_docs),
         imageStore := (upsertDeletePhase s uid).imageStore ++ docs.image_docs,
         memo_vector_map := (upsertDeletePhase s uid).memo_vector_map
           ++ [(uid, { text := (docs.base_doc :: docs.attachment_docs).map (fun d => d.doc_id),
                       image := docs.image_docs.map (fun d => d.doc_id) })],
         bm25Nodes := (upsertDeletePhase s uid).bm25Nodes } : IndexState)).memo_vector_map.lookup
      uid).isSome = true := by
    simp only [upsert_entry_lookup (upsertDeletePhase s uid) uid _ hlk, Option.isSome_some]
  have hup1 : upsertDeletePhase
      { textPersistDir := (upsertDeletePhase s uid).textPersistDir,
        textStore := (upsertDeletePhase s uid).textStore
          ++ (docs.base_doc :: docs.attachment_docs),
        imageStore := (upsertDeletePhase s uid).imageStore ++ docs.image_docs,
        memo_vector_map := (upsertDeletePhase s uid).memo_vector_map
          ++ [(uid, { text := (docs.base_doc :: docs.attachment_docs).map (fun d => d.doc_id),
                      image := docs.image_docs.map (fun d => d.doc_id) })],
        bm25Nodes := (upsertDeletePhase s uid).bm25Nodes } uid
      = upsertDeletePhase s uid := by
    rw [upsertDeletePhase_eq_of_isSome _ uid hsome1]
    exact upsert_then_delete (upsertDeletePhase s uid) docs uid hlk htext himg
  have hlk1 : (upsertDeletePhase
      { textPersistDir := (upsertDeletePhase s uid).textPersistDir,
        textStore := (upsertDeletePhase s uid).textStore
          ++ (docs.base_doc :: docs.attachment_docs),
        imageStore := (upsertDeletePhase s uid).imageStore ++ docs.image_docs,
        memo_vector_map := (upsertDeletePhase s uid).memo_vector_map
          ++ [(uid, { text := (docs.base_doc :: docs.attachment_docs).map (fun d => d.doc_id),
                      image := docs.image_docs.map (fun d => d.doc_id) })],
        bm25Nodes := (upsertDeletePhase s uid).bm25Nodes } uid).memo_vector_map.lookup uid
      = none := by
    rw [hup1]
    exact hlk
  have hS2 := add_or_update_memo_success _ docs ok uid h1 h2 hok hlk1
  rw [hS2, hup1]

/-- C5 witness: a concrete fresh memo upserted twice equals one upsert. -/
theorem C5_upsert_idempotent_witness :
    (docsA.base_doc.metadata.lookup "memo_uid" = some "memos/A"
      ∧ ("memos/A" : String) ≠ ""
      ∧ (∀ d ∈ docsA.base_doc :: (docsA.attachment_docs ++ docsA.image_docs),
          (fun _ => true) d.doc_id = true)
      ∧ (emptyState.memo_vector_map.map Prod.fst).Nodup
      ∧ (∀ e ∈ (upsertDeletePhase emptyState "memos/A").textStore,
          e.doc_id ∉ (docsA.base_doc :: docsA.attachment_docs).map (fun d => d.doc_id))
      ∧ (∀ e ∈ (upsertDeletePhase emptyState "memos/A").imageStore,
          e.doc_id ∉ docsA.image_docs.map (fun d => d.doc_id)))
    ∧ (add_or_update_memo (add_or_update_memo emptyState docsA (fun _ => true)).1
        docsA (fun _ => true)).1
      = (add_or_update_memo emptyState docsA (fun _ => true)).1 :=
  ⟨⟨rfl, by decide, by decide, by decide, by decide, by decide⟩,
    C5_upsert_idempotent emptyState docsA (fun _ => true) "memos/A" rfl (by decide)
      (by decide) (by decide) (by decide) (by decide)⟩

theorem sortedDesc_finalizeFusion (scores : List (String × ℚ))
    (docs : List (String × RetrievalResult)) (src : Option String) :
    SortedDesc (finalizeFusion scores docs src) := by
  unfold SortedDesc
  simp only [finalizeFusion]
  rw [List.pairwise_map]
  refine List.Pairwise.imp ?_ (List.sorted_mergeSort ?_ ?_ (scores.map Prod.fst))
  · intro a b hab
    have hab' : scoreOf scores b ≤ scoreOf scores a := by simpa using hab
    cases src <;> simpa using hab'
  · intro a b c hab hbc
    simp only [decide_eq_true_eq] at *
    exact le_trans hbc hab
  · intro a b
    simp only [Bool.or_eq_true, decide_eq_true_eq]
    exact le_total (scoreOf scores b) (scoreOf scores a)

theorem sortedDesc_rrf_fusion (k : ℚ) (lists : List (List RetrievalResult × ℚ)) :
    SortedDesc (rrf_fusion k lists) := by
  unfold rrf_fusion
  exact sortedDesc_finalizeFusion _ _ _

theorem sortedDesc_rrf_fusion_bm25vec (k : ℚ) (lists : List (List RetrievalResult × ℚ)) :
    SortedDesc (rrf_fusion_bm25vec k lists) := by
  unfold rrf_fusion_bm25vec
  exact sortedDesc_finalizeFusion _ _ _

theorem sortedDesc_weighted_fusion (r1 : List RetrievalResult) (w1 : ℚ)
    (r2 : List RetrievalResult) (w2 : ℚ) :
    SortedDesc (weighted_fusion r1 w1 r2 w2) := by
  unfold weighted_fusion
  exact sortedDesc_finalizeFusion _ _ _

theorem sortedDesc_alpha_fusion (a : ℚ) (r1 r2 : List RetrievalResult) (src : String) :
    SortedDesc (alpha_fusion a r1 r2 src) := by
  unfold alpha_fusion
  exact sortedDesc_finalizeFusion _ _ _

theorem sortedDesc_minFilter_take (l : List RetrievalResult) (m : ℚ) (n : ℕ)
    (h : SortedDesc l) :
    SortedDesc ((if 0 < m then l.filter (fun r => decide (m ≤ r.score)) else l).take n) := by
  apply sortedDesc_take
  split
  · exact sortedDesc_filter _ _ h
  · exact h

/-- C8: for every strategy (text, image, bm25, vector, hybrid, rrf,
weighted, bm25_vector, bm25_vector_alpha, adaptive), every index state,
every external ranking, and every query, the returned list is sorted by
score descending and holds at most `top_k` results. -/
theorem C8_sorted_and_bounded (s : IndexState) (rT rI rB : RankFn)
    (q : RetrievalQuery) (k tw iw rrfk bw vw alphaParam base_alpha : ℚ) :
    (SortedDesc (text_retrieve s rT q) ∧ (text_retrieve s rT q).length ≤ q.top_k)
    ∧ (SortedDesc (image_retrieve s rI q) ∧ (image_retrieve s rI q).length ≤ q.top_k)
    ∧ (SortedDesc (bm25_retrieve s rB q) ∧ (bm25_retrieve s rB q).length ≤ q.top_k)
    ∧ (SortedDesc (vector_retrieve s rT rI q) ∧ (vector_retrieve s rT rI q).length ≤ q.top_k)
    ∧ (SortedDesc (hybrid_retrieve s rT rI q) ∧ (hybrid_retrieve s rT rI q).length ≤ q.top_k)
    ∧ (SortedDesc (rrf_retrieve s rT rI k tw iw q)
        ∧ (rrf_retrieve s rT rI k tw iw q).length ≤ q.top_k)
    ∧ (SortedDesc (weighted_retrieve s rT rI tw iw q)
        ∧ (weighted_retrieve s rT rI tw iw q).length ≤ q.top_k)
    ∧ (SortedDesc (bm25_vector_retrieve s rT rB rrfk bw vw q)
        ∧ (bm25_vector_retrieve s rT rB rrfk bw vw q).length ≤ q.top_k)
    ∧ (SortedDesc (bm25_vector_alpha_retrieve s rT rB alphaParam q)
        ∧ (bm25_vector_alpha_retrieve s rT rB alphaParam q).length ≤ q.top_k)
    ∧ (SortedDesc (adaptive_retrieve s rT rB base_alpha q)
        ∧ (adaptive_retrieve s rT rB base_alpha q).length ≤ q.top_k) := by
  refine ⟨⟨?_, ?_⟩, ⟨?_, ?_⟩, ⟨?_, ?_⟩, ⟨?_, ?_⟩, ⟨?_, ?_⟩, ⟨?_, ?_⟩, ⟨?_, ?_⟩,
    ⟨?_, ?_⟩, ⟨?_, ?_⟩, ⟨?_, ?_⟩⟩
  · exact sortedDesc_take _ _ (sortedDesc_dedup _)
  · exact List.length_take_le _ _
  · exact sortedDesc_take _ _ (sortedDesc_dedup _)
  · exact List.length_take_le _ _
  · unfold bm25_retrieve
    split
    · exact List.Pairwise.nil
    · exact sortedDesc_take _ _ (sortedDesc_dedup _)
  · unfold bm25_retrieve
    split
    · simp
    · exact List.length_take_le _ _
  · exact sortedDesc_take _ _ (sortedDesc_dedup _)
  · exact List.length_take_le _ _
  · exact sortedDesc_take _ _ (sortedDesc_dedup _)
  · exact List.length_take_le _ _
  · exact sortedDesc_minFilter_take _ _ _ (sortedDesc_rrf_fusion _ _)
  · exact List.length_take_le _ _
  · exact sortedDesc_minFilter_take _ _ _ (sortedDesc_weighted_fusion _ _ _ _)
  · exact List.length_take_le _ _
  · exact sortedDesc_minFilter_take _ _ _ (sortedDesc_rrf_fusion_bm25vec _ _)
  · exact List.length_take_le _ _
  · exact sortedDesc_minFilter_take _ _ _ (sortedDesc_alpha_fusion _ _ _ _)
  · exact List.length_take_le _ _
  · exact sortedDesc_minFilter_take _ _ _ (sortedDesc_alpha_fusion _ _ _ _)
  · exact List.length_take_le _ _

/-! C2 — deletion and the retrieval strategies. -/

theorem mem_dedupStep (r x : RetrievalResult) (acc : List RetrievalResult)
    (h : r ∈ dedupStep acc x) : r ∈ acc ∨ r = x := by
  unfold dedupStep at h
  rcases hf : acc.find? (fun s => s.memo_uid == x.memo_uid) with _ | s
  · simp only [hf] at h
    rcases List.mem_append.mp h with h1 | h1
    · exact Or.inl h1
    · exact Or.inr (List.mem_singleton.mp h1)
  · simp only [hf] at h
    by_cases hs : s.score < x.score
    · rw [if_pos hs] at h
      rcases List.mem_map.mp h with ⟨t, ht, hteq⟩
      by_cases htu : (t.memo_uid == x.memo_uid)
      · rw [if_pos htu] at hteq
        exact Or.inr hteq.symm
      · rw [if_neg htu] at hteq
        exact Or.inl (hteq ▸ ht)
    · rw [if_neg hs] at h
      exact Or.inl h

theorem mem_foldl_dedupStep (r : RetrievalResult) (l acc : List RetrievalResult)
    (h : r ∈ l.foldl dedupStep acc) : r ∈ acc ∨ r ∈ l := by
  induction l generalizing acc with
  | nil => exact Or.inl h
  | cons x t ih =>
      rcases ih (dedupStep acc x) h with h1 | h1
      · rcases mem_dedupStep r x acc h1 with h2 | h2
        · exact Or.inl h2
        · exact Or.inr (by simp [h2])
      · exact Or.inr (List.mem_cons_of_mem x h1)

theorem mem_deduplicate_by_memo (r : RetrievalResult) (l : List RetrievalResult)
    (h : r ∈ deduplicate_by_memo l) : r ∈ l := by
  unfold deduplicate_by_memo sortByScoreDesc at h
  rcases mem_foldl_dedupStep r l [] (List.mem_mergeSort.mp h) with h1 | h1
  · exact absurd h1 (List.not_mem_nil r)
  · exact h1

theorem soundRank_constRank : SoundRank constRank := by
  intro store q n p hp
  unfold constRank at hp
  have hp' := List.take_subset n _ hp
  rcases List.mem_map.mp hp' with ⟨e, he, heq⟩
  rw [← heq]
  exact he

theorem mem_text_retrieve (s : IndexState) (rT : RankFn) (q : RetrievalQuery)
    (r : RetrievalResult) (hsnd : SoundRank rT) (h : r ∈ text_retrieve s rT q) :
    ∃ e ∈ s.textStore, r.memo_uid = (e.metadata.lookup "memo_uid").getD "" := by
  unfold text_retrieve at h
  have h1 := mem_deduplicate_by_memo r _ (List.take_subset q.top_k _ h)
  have h2 := (List.mem_filter.mp h1).1
  rcases List.mem_map.mp h2 with ⟨p, hp, hpe⟩
  exact ⟨p.1, hsnd _ _ _ p hp, by rw [← hpe]; rfl⟩

theorem mem_image_retrieve (s : IndexState) (rI : RankFn) (q : RetrievalQuery)
    (r : RetrievalResult) (hsnd : SoundRank rI) (h : r ∈ image_retrieve s rI q) :
    ∃ e ∈ s.imageStore, r.memo_uid = (e.metadata.lookup "memo_uid").getD "" := by
  unfold image_retrieve at h
  have h1 := mem_deduplicate_by_memo r _ (List.take_subset q.top_k _ h)
  have h2 := (List.mem_filter.mp h1).1
  rcases List.mem_map.mp h2 with ⟨p, hp, hpe⟩
  exact ⟨p.1, hsnd _ _ _ p hp, by rw [← hpe]; rfl⟩

theorem delete_cleans_text (s : IndexState) (uid : String) (hwf : StoreWF s uid) :
    ∀ e ∈ (delete_memo s uid).1.textStore,
      (e.metadata.lookup "memo_uid").getD "" ≠ uid := by
  intro e he hm
  unfold delete_memo at he
  rcases ho : s.memo_vector_map.lookup uid with _ | ent
  · rw [ho] at he
    rcases hwf.1 e he hm with ⟨ent, hent, _⟩
    rw [ho] at hent
    exact Option.noConfusion hent
  · rw [ho] at he
    have he' := List.mem_filter.mp he
    rcases hwf.1 e he'.1 hm with ⟨ent', hent', hid⟩
    rw [ho] at hent'
    have : ent' = ent := Option.some.inj hent'.symm
    subst this
    have := he'.2
    simp only [decide_eq_true_eq, List.elem_eq_mem, decide_not] at this
    exact absurd hid (by simpa using this)

theorem delete_cleans_image (s : IndexState) (uid : String) (hwf : StoreWF s uid) :
    ∀ e ∈ (delete_memo s uid).1.imageStore,
      (e.metadata.lookup "memo_uid").getD "" ≠ uid := by
  intro e he hm
  unfold delete_memo at he
  rcases ho : s.memo_vector_map.lookup uid with _ | ent
  · rw [ho] at he
    rcases hwf.2 e he hm with ⟨ent, hent, _⟩
    rw [ho] at hent
    exact Option.noConfusion hent
  · rw [ho] at he
    have he' := List.mem_filter.mp he
    rcases hwf.2 e he'.1 hm with ⟨ent', hent', hid⟩
    rw [ho] at hent'
    have : ent' = ent := Option.some.inj hent'.symm
    subst this
    have := he'.2
    simp only [decide_eq_true_eq, List.elem_eq_mem, decide_not] at this
    exact absurd hid (by simpa using this)

/-! C9 — caption failures never abort the build. -/

theorem generate_caption_async_err (apiKeyConfigured : Bool)
    (parse : String → Option ImageCaption) (msg : String) :
    generate_caption_async apiKeyConfigured parse (.err msg) = none := by
  cases apiKeyConfigured <;> rfl

theorem build_image_docs_skip_non_images (memo : Memo) (cfg : LoaderSettings)
    (ext : LoaderExt)
    (capFn : Option (String → List (String × String) → Option String))
    (pre rest : List Attachment) (idx haveImgs : ℕ)
    (hpre : ∀ a ∈ pre, isImageAtt a = false) :
    build_image_docs memo cfg ext capFn (pre ++ rest) idx haveImgs
      = build_image_docs memo cfg ext capFn rest (idx + pre.length) haveImgs := by
  induction pre generalizing idx with
  | nil => simp
  | cons a t ih =>
      have ha : isImageAtt a = false := hpre a (by simp)
      rw [List.cons_append]
      unfold build_image_docs
      rw [if_pos (by simp [ha])]
      rw [ih (idx + 1) (fun x hx => hpre x (by simp [hx]))]
      simp only [List.length_cons]
      have harith : idx + 1 + t.length = idx + (t.length + 1) := by omega
      rw [harith, ← build_image_docs.eq_def]

/-- C9: for every memo, configuration and resolvable image attachment (the
first image among the attachments, with a nonempty filename), when the
caption provider throws — modelled by `generate_caption_async` receiving a
failed provider call, which the source catches and turns into `None` — the
document build still succeeds and still emits the image node, whose `text`
equals the attachment's filename. -/
theorem C9_caption_failure_fallback (memo : Memo) (cfg : LoaderSettings)
    (ext : LoaderExt) (apiKey : Bool) (parse : String → Option ImageCaption)
    (err : String) (pre : List Attachment) (att : Attachment)
    (post : List Attachment) (f : String)
    (hatt : memo.attachments = pre ++ att :: post)
    (hpre : ∀ a ∈ pre, isImageAtt a = false)
    (himg : isImageAtt att = true)
    (hpay : ∃ payload, build_data_url att cfg ext = some payload)
    (hf : att.filename = some f) (hfne : f ≠ "") :
    ∃ d ∈ (load_memo_to_llama_docs memo cfg ext
        (some (fun payload meta =>
          generate_caption_async apiKey parse (.err err)))).image_docs,
      d.doc_id = "memo:" ++ pyStr memo.name ++ ":img:" ++ toString pre.length
      ∧ d.text = f := by
  rcases hpay with ⟨payload, hpay⟩
  unfold load_memo_to_llama_docs
  simp only [hatt]
  rw [build_image_docs_skip_non_images _ _ _ _ pre (att :: post) 0 0 hpre]
  unfold build_image_docs
  rw [if_neg (by simp [himg])]
  rw [if_neg (fun hc => hc.1 (Nat.le_zero.mp hc.2))]
  rw [hpay]
  rw [generate_caption_async_err]
  have hcap : optOr att.filename (optOr att.name "") = f := by
    unfold optOr
    rw [hf]
    simp [hfne]
  rw [hcap]
  refine ⟨_, List.mem_cons_self _ _, ?_, rfl⟩
  simp

/-- C9 witness: concrete memo with one image attachment and a throwing
caption provider. -/
theorem C9_caption_failure_witness :
    (memoW.attachments = [] ++ attW :: []
      ∧ (∀ a ∈ ([] : List Attachment), isImageAtt a = false)
      ∧ isImageAtt attW = true
      ∧ (∃ payload, build_data_url attW cfgW extW = some payload)
      ∧ attW.filename = some "photo.png"
      ∧ ("photo.png" : String) ≠ "")
    ∧ ∃ d ∈ (load_memo_to_llama_docs memoW cfgW extW
        (some (fun payload meta =>
          generate_caption_async false (fun _ => none) (.err "boom")))).image_docs,
      d.doc_id = "memo:" ++ pyStr memoW.name ++ ":img:" ++ toString (List.length ([] : List Attachment))
      ∧ d.text = "photo.png" :=
  ⟨⟨rfl, by decide, by decide, ⟨"http://example.com/photo.png", rfl⟩, rfl, by decide⟩,
    C9_caption_failure_fallback memoW cfgW extW false (fun _ => none) "boom" [] attW []
      "photo.png" rfl (by decide) (by decide)
      ⟨"http://example.com/photo.png", rfl⟩ rfl (by decide)⟩

/-! C6 — Reciprocal Rank Fusion. -/

theorem getD_lookup_bumpScore (acc : List (String × ℚ)) (v : String) (c : ℚ)
    (uid : String) :
    ((bumpScore acc v c).lookup uid).getD 0
      = (acc.lookup uid).getD 0 + (if uid = v then c else 0) := by
  unfold bumpScore
  by_cases hu : uid = v
  · subst hu
    rw [lookup_assocSet_self]
    simp
  · rw [lookup_assocSet_ne _ _ _ _ hu]
    simp [hu]

theorem isSome_lookup_bumpScore (acc : List (String × ℚ)) (v : String) (c : ℚ)
    (uid : String) :
    ((bumpScore acc v c).lookup uid).isSome ↔ (acc.lookup uid).isSome ∨ uid = v := by
  unfold bumpScore
  by_cases hu : uid = v
  · subst hu
    rw [lookup_assocSet_self]
    simp
  · rw [lookup_assocSet_ne _ _ _ _ hu]
    simp [hu]

theorem not_mem_keys_of_lookup_none {β : Type} (l : List (String × β)) (k : String)
    (h : l.lookup k = none) : k ∉ l.map Prod.fst := by
  intro hk
  rcases List.mem_map.mp hk with ⟨p, hp, hpe⟩
  have := List.lookup_eq_none_iff.mp h p hp
  rw [hpe] at this
  simp at this

theorem nodup_keys_bumpScore (acc : List (String × ℚ)) (v : String) (c : ℚ)
    (h : (acc.map Prod.fst).Nodup) :
    ((bumpScore acc v c).map Prod.fst).Nodup := by
  unfold bumpScore
  rw [keys_assocSet]
  rcases hk : acc.lookup v with _ | w
  · simp only [Option.isSome_none, Bool.false_eq_true, if_false]
    rw [List.nodup_append]
    exact ⟨h, List.nodup_singleton v,
      fun u hu hv => (List.mem_singleton.mp hv ▸ not_mem_keys_of_lookup_none acc v hk) hu⟩
  · simpa using h

theorem keys_ne_foldl_rrfStep (ps : List (RetrievalResult × ℚ))
    (st : List (String × ℚ) × List (String × RetrievalResult))
    (h : ∀ u ∈ st.1.map Prod.fst, u ≠ "") :
    ∀ u ∈ (ps.foldl rrfStep st).1.map Prod.fst, u ≠ "" := by
  induction ps generalizing st with
  | nil => exact h
  | cons p t ih =>
      rw [List.foldl_cons]
      apply ih
      unfold rrfStep
      by_cases hp : p.1.memo_uid = ""
      · rw [if_pos hp]
        exact h
      · rw [if_neg hp]
        intro u hu
        unfold bumpScore at hu
        rw [keys_assocSet] at hu
        rcases hk : (st.1.lookup p.1.memo_uid) with _ | w
        · rw [hk] at hu
          simp only [Option.isSome_none, Bool.false_eq_true, if_false] at hu
          rcases List.mem_append.mp hu with h1 | h1
          · exact h u h1
          · rw [List.mem_singleton.mp h1]
            exact hp
        · rw [hk] at hu
          simp only [Option.isSome_some, if_true] at hu
          exact h u hu

theorem nodup_keys_foldl_rrfStep (ps : List (RetrievalResult × ℚ))
    (st : List (String × ℚ) × List (String × RetrievalResult))
    (h : (st.1.map Prod.fst).Nodup) :
    ((ps.foldl rrfStep st).1.map Prod.fst).Nodup := by
  induction ps generalizing st with
  | nil => exact h
  | cons p t ih =>
      rw [List.foldl_cons]
      apply ih
      unfold rrfStep
      by_cases hp : p.1.memo_uid = ""
      · rw [if_pos hp]
        exact h
      · rw [if_neg hp]
        exact nodup_keys_bumpScore _ _ _ h

theorem score_foldl_rrfStep (ps : List (RetrievalResult × ℚ))
    (st : List (String × ℚ) × List (String × RetrievalResult)) (uid : String)
    (h : uid ≠ "") :
    (((ps.foldl rrfStep st).1.lookup uid)).getD 0
      = (st.1.lookup uid).getD 0 + sumContribsFor uid ps := by
  induction ps generalizing st with
  | nil => simp [sumContribsFor]
  | cons p t ih =>
      rw [List.foldl_cons, ih]
      unfold rrfStep
      by_cases hp : p.1.memo_uid = ""
      · rw [if_pos hp]
        have heq : sumContribsFor uid (p :: t) = sumContribsFor uid t := by
          unfold sumContribsFor
          rw [List.filter_cons, if_neg (by simp [hp, Ne.symm h])]
        rw [heq]
      · rw [if_neg hp]
        rw [getD_lookup_bumpScore]
        unfold sumContribsFor
        rw [List.filter_cons]
        by_cases hu : p.1.memo_uid = uid
        · simp only [hu, beq_self_eq_true, if_true, List.map_cons, List.sum_cons]
          ring
        · have hb : (p.1.memo_uid == uid) = false := by simp [hu]
          simp only [hb, Bool.false_eq_true, if_false]
          rw [if_neg (fun he => hu he.symm)]
          ring

theorem isSome_foldl_rrfStep (ps : List (RetrievalResult × ℚ))
    (st : List (String × ℚ) × List (String × RetrievalResult)) (uid : String)
    (h : uid ≠ "") :
    ((ps.foldl rrfStep st).1.lookup uid).isSome
      ↔ (st.1.lookup uid).isSome ∨ ∃ p ∈ ps, p.1.memo_uid = uid := by
  induction ps generalizing st with
  | nil => simp
  | cons p t ih =>
      rw [List.foldl_cons, ih]
      unfold rrfStep
      by_cases hp : p.1.memo_uid = ""
      · rw [if_pos hp]
        constructor
        · rintro (h1 | h1)
          · exact Or.inl h1
          · exact Or.inr (by rcases h1 with ⟨q, hq, he⟩; exact ⟨q, by simp [hq], he⟩)
        · rintro (h1 | ⟨q, hq, he⟩)
          · exact Or.inl h1
          · rcases List.mem_cons.mp hq with rfl | hq'
            · exact absurd (he.symm.trans hp) h
            · exact Or.inr ⟨q, hq', he⟩
      · rw [if_neg hp]
        rw [isSome_lookup_bumpScore]
        constructor
        · rintro ((h1 | h1) | h1)
          · exact Or.inl h1
          · exact Or.inr ⟨p, by simp, h1.symm⟩
          · rcases h1 with ⟨q, hq, he⟩
            exact Or.inr ⟨q, by simp [hq], he⟩
        · rintro (h1 | ⟨q, hq, he⟩)
          · exact Or.inl (Or.inl h1)
          · rcases List.mem_cons.mp hq with rfl | hq'
            · exact Or.inl (Or.inr he.symm)
            · exact Or.inr ⟨q, hq', he⟩

theorem docs_foldl_rrfStep (ps : List (RetrievalResult × ℚ))
    (st : List (String × ℚ) × List (String × RetrievalResult)) (uid : String)
    (h : uid ≠ "") :
    (ps.foldl rrfStep st).2.lookup uid
      = (st.2.lookup uid).or
          ((ps.find? (fun p => p.1.memo_uid == uid)).map Prod.fst) := by
  induction ps generalizing st with
  | nil => simp
  | cons p t ih =>
      rw [List.foldl_cons, ih]
      unfold rrfStep
      by_cases hp : p.1.memo_uid = ""
      · rw [if_pos hp]
        have hfind : (p :: t).find? (fun q => q.1.memo_uid == uid)
            = t.find? (fun q => q.1.memo_uid == uid) :=
          List.find?_cons_of_neg _ (by simp [hp, Ne.symm h])
        rw [hfind]
      · rw [if_neg hp]
        rw [lookup_seenDoc]
        by_cases hu : uid = p.1.memo_uid
        · rw [if_pos hu]
          have hfind : (p :: t).find? (fun q => q.1.memo_uid == uid) = some p :=
            List.find?_cons_of_pos _ (by simp [hu.symm])
          rw [hfind]
          rcases st.2.lookup uid with _ | d <;> rfl
        · rw [if_neg hu]
          have hfind : (p :: t).find? (fun q => q.1.memo_uid == uid)
              = t.find? (fun q => q.1.memo_uid == uid) :=
            List.find?_cons_of_neg _
              (by simp only [beq_iff_eq]; exact fun he => hu he.symm)
          rw [hfind]
          rcases st.2.lookup uid with _ | d <;> rfl

theorem map_fst_rrfContribs (k : ℚ) (lists : List (List RetrievalResult × ℚ)) :
    (rrfContribs k lists).map Prod.fst = lists.flatMap Prod.fst := by
  unfold rrfContribs
  induction lists with
  | nil => rfl
  | cons rw_ t ih =>
      simp only [List.flatMap_cons, List.map_append, ih, List.map_map]
      congr 1
      have : (Prod.fst ∘ fun p : ℕ × RetrievalResult =>
          (p.2, rw_.2 * (1 / (k + (p.1 : ℚ) + 1)))) = Prod.snd := by
        funext p
        rfl
      rw [this, show rw_.1.enum = List.enumFrom 0 rw_.1 from rfl, List.enumFrom_map_snd]

theorem sumContribsFor_rrfContribs (k : ℚ) (lists : List (List RetrievalResult × ℚ))
    (uid : String) :
    sumContribsFor uid (rrfContribs k lists) = rrfClaimScore k lists uid := by
  unfold sumContribsFor rrfContribs rrfClaimScore
  induction lists with
  | nil => rfl
  | cons rw_ t ih =>
      simp only [List.flatMap_cons, List.filter_append, List.map_append,
        List.sum_append, List.map_cons, List.sum_cons]
      rw [ih]
      congr 1
      rw [List.filter_map, List.map_map]
      congr 1

theorem keys_rrfState_ne (k : ℚ) (lists : List (List RetrievalResult × ℚ)) :
    ∀ u ∈ (rrfState k lists).1.map Prod.fst, u ≠ "" := by
  unfold rrfState
  exact keys_ne_foldl_rrfStep _ _ (by simp)

theorem nodup_keys_rrfState (k : ℚ) (lists : List (List RetrievalResult × ℚ)) :
    ((rrfState k lists).1.map Prod.fst).Nodup := by
  unfold rrfState
  exact nodup_keys_foldl_rrfStep _ _ (by simp)

theorem rrfState_docs_lookup (k : ℚ) (lists : List (List RetrievalResult × ℚ))
    (uid : String) (h1 : uid ≠ "") :
    (rrfState k lists).2.lookup uid
      = (lists.flatMap Prod.fst).find? (fun r => r.memo_uid == uid) := by
  unfold rrfState
  rw [docs_foldl_rrfStep _ _ _ h1]
  have hcomp : (rrfContribs k lists).find? (fun p => p.1.memo_uid == uid)
      = (rrfContribs k lists).find?
          ((fun r : RetrievalResult => r.memo_uid == uid) ∘ Prod.fst) := rfl
  have hmap : ((rrfContribs k lists).map Prod.fst).find?
        (fun r : RetrievalResult => r.memo_uid == uid)
      = ((rrfContribs k lists).find?
          ((fun r : RetrievalResult => r.memo_uid == uid) ∘ Prod.fst)).map Prod.fst :=
    List.find?_map _ _
  rw [show (List.lookup uid ([] : List (String × RetrievalResult))) = none from rfl]
  rw [Option.none_or, hcomp, ← hmap, map_fst_rrfContribs]

theorem rrfState_score (k : ℚ) (lists : List (List RetrievalResult × ℚ))
    (uid : String) (h1 : uid ≠ "") :
    scoreOf (rrfState k lists).1 uid = rrfClaimScore k lists uid := by
  unfold rrfState scoreOf
  rw [score_foldl_rrfStep _ _ _ h1]
  rw [show (List.lookup uid ([] : List (String × ℚ))) = none from rfl]
  rw [sumContribsFor_rrfContribs]
  simp

theorem rrfState_mem_keys (k : ℚ) (lists : List (List RetrievalResult × ℚ))
    (uid : String) (r0 : RetrievalResult) (h1 : uid ≠ "")
    (h2 : rrfFirstSeen lists uid = some r0) :
    uid ∈ (rrfState k lists).1.map Prod.fst := by
  have hr0mem : r0 ∈ lists.flatMap Prod.fst := List.mem_of_find?_eq_some h2
  have hr0uid : r0.memo_uid = uid := by
    have := List.find?_some h2
    simpa using this
  have hsome : (((rrfContribs k lists).foldl rrfStep ([], [])).1.lookup uid).isSome := by
    rw [isSome_foldl_rrfStep _ _ _ h1]
    refine Or.inr ?_
    rw [← map_fst_rrfContribs k lists] at hr0mem
    rcases List.mem_map.mp hr0mem with ⟨p, hp, hpe⟩
    exact ⟨p, hp, by rw [hpe]; exact hr0uid⟩
  rcases List.lookup_isSome_iff.mp hsome with ⟨p, hp, hpe⟩
  refine List.mem_map.mpr ⟨p, hp, ?_⟩
  have h' : uid = p.1 := by simpa using hpe
  exact h'.symm

theorem rrfState_entry (k : ℚ) (lists : List (List RetrievalResult × ℚ))
    (uid : String) (h1 : uid ≠ "")
    (hmem : uid ∈ (rrfState k lists).1.map Prod.fst) :
    ∃ r, (rrfState k lists).2.lookup uid = some r ∧ r.memo_uid = uid := by
  have hsome : ((rrfState k lists).1.lookup uid).isSome := by
    rcases List.mem_map.mp hmem with ⟨p, hp, hpe⟩
    exact List.lookup_isSome_iff.mpr ⟨p, hp, by simp [hpe]⟩
  have hex : ∃ p ∈ rrfContribs k lists, p.1.memo_uid = uid := by
    have := (isSome_foldl_rrfStep (rrfContribs k lists) ([], []) uid h1).mp
      (by exact hsome)
    rcases this with h | h
    · simp at h
    · exact h
  have hfind : ((lists.flatMap Prod.fst).find? (fun r => r.memo_uid == uid)).isSome := by
    rw [List.find?_isSome]
    rcases hex with ⟨p, hp, hpe⟩
    refine ⟨p.1, ?_, by simp [hpe]⟩
    rw [← map_fst_rrfContribs k lists]
    exact List.mem_map_of_mem Prod.fst hp
  rcases Option.isSome_iff_exists.mp hfind with ⟨r, hr⟩
  refine ⟨r, ?_, ?_⟩
  · rw [rrfState_docs_lookup k lists uid h1, hr]
  · have := List.find?_some hr
    simpa using this

theorem finalizeFusion_map_uid (scores : List (String × ℚ))
    (docs : List (String × RetrievalResult)) (src : Option String)
    (hk : ∀ u ∈ scores.map Prod.fst, ∃ r, docs.lookup u = some r ∧ r.memo_uid = u) :
    (finalizeFusion scores docs src).map (fun r => r.memo_uid)
      = (scores.map Prod.fst).mergeSort
          (fun a b => decide (scoreOf scores b ≤ scoreOf scores a)) := by
  unfold finalizeFusion
  rw [List.map_map]
  have hcongr : ∀ u ∈ (scores.map Prod.fst).mergeSort
      (fun a b => decide (scoreOf scores b ≤ scoreOf scores a)),
      ((fun r : RetrievalResult => r.memo_uid) ∘ (fun uid =>
        let d := (docs.lookup uid).getD default
        let d' := { d with score := scoreOf scores uid }
        match src with
        | none => d'
        | some s => { d' with source := s })) u = id u := by
    intro u hu
    rcases hk u (List.mem_mergeSort.mp hu) with ⟨r, hr, hru⟩
    cases src <;> simp [hr, hru]
  rw [List.map_congr_left hcongr, List.map_id]

theorem nodup_uids_finalizeFusion (scores : List (String × ℚ))
    (docs : List (String × RetrievalResult)) (src : Option String)
    (hnd : (scores.map Prod.fst).Nodup)
    (hk : ∀ u ∈ scores.map Prod.fst, ∃ r, docs.lookup u = some r ∧ r.memo_uid = u) :
    ((finalizeFusion scores docs src).map (fun r => r.memo_uid)).Nodup := by
  rw [finalizeFusion_map_uid scores docs src hk]
  exact (List.mergeSort_perm _ _).symm.nodup hnd

theorem mem_finalizeFusion_of_key (scores : List (String × ℚ))
    (docs : List (String × RetrievalResult)) (src : Option String)
    (uid : String) (r0 : RetrievalResult)
    (hmem : uid ∈ scores.map Prod.fst)
    (hdoc : docs.lookup uid = some r0) :
    ∃ fr ∈ finalizeFusion scores docs src,
      fr.memo_uid = r0.memo_uid ∧ fr.score = scoreOf scores uid
      ∧ fr.content = r0.content ∧ fr.metadata = r0.metadata
      ∧ fr.source = src.getD r0.source := by
  unfold finalizeFusion
  have husort : uid ∈ (scores.map Prod.fst).mergeSort
      (fun a b => decide (scoreOf scores b ≤ scoreOf scores a)) :=
    List.mem_mergeSort.mpr hmem
  refine ⟨_, List.mem_map_of_mem _ husort, ?_⟩
  cases src <;> simp [hdoc]

theorem mem_keys_of_lookup_isSome {β : Type} (l : List (String × β)) (k : String)
    (h : (l.lookup k).isSome) : k ∈ l.map Prod.fst := by
  rcases List.lookup_isSome_iff.mp h with ⟨p, hp, hpe⟩
  have h' : k = p.1 := by simpa using hpe
  exact List.mem_map.mpr ⟨p, hp, h'.symm⟩

theorem lookup_isSome_of_mem_keys {β : Type} (l : List (String × β)) (k : String)
    (h : k ∈ l.map Prod.fst) : (l.lookup k).isSome := by
  rcases List.mem_map.mp h with ⟨p, hp, hpe⟩
  exact List.lookup_isSome_iff.mpr ⟨p, hp, by simp [hpe]⟩

theorem mem_finalizeFusion_uid (scores : List (String × ℚ))
    (docs : List (String × RetrievalResult)) (src : Option String)
    (r : RetrievalResult)
    (hkeys : ∀ u, (scores.lookup u).isSome → (docs.lookup u).isSome)
    (h : r ∈ finalizeFusion scores docs src) :
    ∃ u r0, (scores.lookup u).isSome ∧ docs.lookup u = some r0
      ∧ r.memo_uid = r0.memo_uid := by
  unfold finalizeFusion at h
  rcases List.mem_map.mp h with ⟨u, hu, hue⟩
  have hsome : (scores.lookup u).isSome :=
    lookup_isSome_of_mem_keys _ _ (List.mem_mergeSort.mp hu)
  rcases Option.isSome_iff_exists.mp (hkeys u hsome) with ⟨r0, hr0⟩
  refine ⟨u, r0, hsome, hr0, ?_⟩
  rw [← hue]
  cases src <;> simp [hr0]

theorem weightedFoldA_keys (w : ℚ) (rs : List RetrievalResult)
    (st : List (String × ℚ) × List (String × RetrievalResult))
    (hinv : ∀ u, (st.1.lookup u).isSome → (st.2.lookup u).isSome) :
    ∀ u, (((rs.foldl (fun st r =>
        if r.memo_uid = "" then st
        else (assocSet st.1 r.memo_uid (r.score * w),
              assocSet st.2 r.memo_uid r)) st).1).lookup u).isSome
      → (((rs.foldl (fun st r =>
        if r.memo_uid = "" then st
        else (assocSet st.1 r.memo_uid (r.score * w),
              assocSet st.2 r.memo_uid r)) st).2).lookup u).isSome := by
  induction rs generalizing st with
  | nil => exact hinv
  | cons a t ih =>
      rw [List.foldl_cons]
      refine ih _ ?_
      intro u hu
      by_cases ha : a.memo_uid = ""
      · simp only [if_pos ha] at hu ⊢
        exact hinv u hu
      · simp only [if_neg ha] at hu ⊢
        by_cases huid : u = a.memo_uid
        · subst huid
          rw [lookup_assocSet_self]
          rfl
        · rw [lookup_assocSet_ne _ _ _ _ huid] at hu
          rw [lookup_assocSet_ne _ _ _ _ huid]
          exact hinv u hu

theorem weightedFoldB_keys (w : ℚ) (rs : List RetrievalResult)
    (st : List (String × ℚ) × List (String × RetrievalResult))
    (hinv : ∀ u, (st.1.lookup u).isSome → (st.2.lookup u).isSome) :
    ∀ u, (((rs.foldl (fun st r =>
        if r.memo_uid = "" then st
        else (assocSet st.1 r.memo_uid ((st.1.lookup r.memo_uid).getD 0 + r.score * w),
              seenDoc st.2 r)) st).1).lookup u).isSome
      → (((rs.foldl (fun st r =>
        if r.memo_uid = "" then st
        else (assocSet st.1 r.memo_uid ((st.1.lookup r.memo_uid).getD 0 + r.score * w),
              seenDoc st.2 r)) st).2).lookup u).isSome := by
  induction rs generalizing st with
  | nil => exact hinv
  | cons a t ih =>
      rw [List.foldl_cons]
      refine ih _ ?_
      intro u hu
      by_cases ha : a.memo_uid = ""
      · simp only [if_pos ha] at hu ⊢
        exact hinv u hu
      · simp only [if_neg ha] at hu ⊢
        rw [lookup_seenDoc]
        by_cases huid : u = a.memo_uid
        · rcases hlu : st.2.lookup u with _ | d
          · rw [Option.none_or, if_pos huid]
            rfl
          · rfl
        · rw [lookup_assocSet_ne _ _ _ _ huid] at hu
          rw [if_neg huid]
          rcases hlu : st.2.lookup u with _ | d
          · have hds := hinv u hu
            rw [hlu] at hds
            exact absurd hds (by simp)
          · rfl

theorem weightedFoldA_docs (w : ℚ) (rs : List RetrievalResult)
    (st : List (String × ℚ) × List (String × RetrievalResult))
    (u : String) (r0 : RetrievalResult)
    (h : ((rs.foldl (fun st r =>
        if r.memo_uid = "" then st
        else (assocSet st.1 r.memo_uid (r.score * w),
              assocSet st.2 r.memo_uid r)) st).2).lookup u = some r0) :
    st.2.lookup u = some r0 ∨ r0 ∈ rs := by
  induction rs generalizing st with
  | nil => exact Or.inl h
  | cons a t ih =>
      rw [List.foldl_cons] at h
      rcases ih _ h with h1 | h1
      · by_cases ha : a.memo_uid = ""
        · simp only [if_pos ha] at h1
          exact Or.inl h1
        · simp only [if_neg ha] at h1
          by_cases huid : u = a.memo_uid
          · subst huid
            rw [lookup_assocSet_self] at h1
            exact Or.inr (by rw [← Option.some.inj h1]; exact List.mem_cons_self a t)
          · rw [lookup_assocSet_ne _ _ _ _ huid] at h1
            exact Or.inl h1
      · exact Or.inr (List.mem_cons_of_mem a h1)

theorem weightedFoldB_docs (w : ℚ) (rs : List RetrievalResult)
    (st : List (String × ℚ) × List (String × RetrievalResult))
    (u : String) (r0 : RetrievalResult)
    (h : ((rs.foldl (fun st r =>
        if r.memo_uid = "" then st
        else (assocSet st.1 r.memo_uid ((st.1.lookup r.memo_uid).getD 0 + r.score * w),
              seenDoc st.2 r)) st).2).lookup u = some r0) :
    st.2.lookup u = some r0 ∨ r0 ∈ rs := by
  induction rs generalizing st with
  | nil => exact Or.inl h
  | cons a t ih =>
      rw [List.foldl_cons] at h
      rcases ih _ h with h1 | h1
      · by_cases ha : a.memo_uid = ""
        · simp only [if_pos ha] at h1
          exact Or.inl h1
        · simp only [if_neg ha] at h1
          rw [lookup_seenDoc] at h1
          rcases hlu : st.2.lookup u with _ | d
          · rw [hlu, Option.none_or] at h1
            by_cases huid : u = a.memo_uid
            · rw [if_pos huid] at h1
              exact Or.inr (by rw [← Option.some.inj h1]; exact List.mem_cons_self a t)
            · rw [if_neg huid] at h1
              exact Option.noConfusion h1
          · rw [hlu] at h1
            exact Or.inl h1
      · exact Or.inr (List.mem_cons_of_mem a h1)

theorem mem_weighted_fusion (rs1 : List RetrievalResult) (w1 : ℚ)
    (rs2 : List RetrievalResult) (w2 : ℚ) (r : RetrievalResult)
    (h : r ∈ weighted_fusion rs1 w1 rs2 w2) :
    ∃ r0, (r0 ∈ rs1 ∨ r0 ∈ rs2) ∧ r.memo_uid = r0.memo_uid := by
  unfold weighted_fusion at h
  have hAkeys := weightedFoldA_keys w1 rs1 ([], []) (by intro v hv; simp at hv)
  have hBkeys := weightedFoldB_keys w2 rs2 _ hAkeys
  rcases mem_finalizeFusion_uid _ _ _ r hBkeys h with ⟨u, r0, _, hr0, huid⟩
  rcases weightedFoldB_docs w2 rs2 _ u r0 hr0 with h1 | h1
  · rcases weightedFoldA_docs w1 rs1 ([], []) u r0 h1 with h2 | h2
    · simp at h2
    · exact ⟨r0, Or.inl h2, huid⟩
  · exact ⟨r0, Or.inr h1, huid⟩

theorem mem_rrf_fusion (k : ℚ) (lists : List (List RetrievalResult × ℚ))
    (r : RetrievalResult) (h : r ∈ rrf_fusion k lists) :
    ∃ r0 ∈ lists.flatMap Prod.fst, r.memo_uid = r0.memo_uid := by
  unfold rrf_fusion at h
  have hkeys : ∀ u, (((rrfState k lists).1).lookup u).isSome
      → (((rrfState k lists).2).lookup u).isSome := by
    intro u hu
    have humem := mem_keys_of_lookup_isSome _ _ hu
    have hne : u ≠ "" := keys_rrfState_ne k lists u humem
    rcases rrfState_entry k lists u hne humem with ⟨r1, hr1, _⟩
    rw [hr1]
    rfl
  rcases mem_finalizeFusion_uid _ _ _ r hkeys h with ⟨u, r0, husome, hr0, huid⟩
  have hne : u ≠ "" :=
    keys_rrfState_ne k lists u (mem_keys_of_lookup_isSome _ _ husome)
  rw [rrfState_docs_lookup k lists u hne] at hr0
  exact ⟨r0, List.mem_of_find?_eq_some hr0, huid⟩

theorem mem_normalize_scores (rs : List RetrievalResult) (r : RetrievalResult)
    (h : r ∈ normalize_scores rs) : ∃ r0 ∈ rs, r.memo_uid = r0.memo_uid := by
  cases rs with
  | nil => simp [normalize_scores] at h
  | cons a t =>
      have hq : normalize_scores (a :: t)
          = (if ((a :: t).map (fun x => x.score)).foldl ratMax a.score
                = ((a :: t).map (fun x => x.score)).foldl ratMin a.score
             then (a :: t).map (fun r => { r with score := 1 })
             else (a :: t).map (fun r =>
               { r with score :=
                  (r.score - ((a :: t).map (fun x => x.score)).foldl ratMin a.score)
                  / (((a :: t).map (fun x => x.score)).foldl ratMax a.score
                     - ((a :: t).map (fun x => x.score)).foldl ratMin a.score) })) := rfl
      rw [hq] at h
      by_cases hc : ((a :: t).map (fun x => x.score)).foldl ratMax a.score
          = ((a :: t).map (fun x => x.score)).foldl ratMin a.score
      · rw [if_pos hc] at h
        rcases List.mem_map.mp h with ⟨r1, hr1, hre⟩
        exact ⟨r1, hr1, by subst hre; rfl⟩
      · rw [if_neg hc] at h
        rcases List.mem_map.mp h with ⟨r1, hr1, hre⟩
        exact ⟨r1, hr1, by subst hre; rfl⟩

theorem mem_of_mem_minscore_take (l : List RetrievalResult) (ms : ℚ) (n : ℕ)
    (r : RetrievalResult)
    (h : r ∈ (if 0 < ms then l.filter (fun r => decide (ms ≤ r.score)) else l).take n) :
    r ∈ l := by
  have h1 := List.take_subset n _ h
  by_cases hms : 0 < ms
  · rw [if_pos hms] at h1
    exact List.mem_of_mem_filter h1
  · rw [if_neg hms] at h1
    exact h1

/-- C2: counterexample.  `delete_memo` removes a memo from the manifest
and the vector stores but never touches the BM25 corpus, so a BM25 query
(here under the library's ranking modelled by a concrete sound oracle)
still returns a result with the deleted memo's uid. -/
theorem C2_counterexample :
    (delete_memo stateWithA "memos/A").1.memo_vector_map = []
    ∧ (delete_memo stateWithA "memos/A").1.textStore = []
    ∧ ∃ r ∈ bm25_retrieve (delete_memo stateWithA "memos/A").1 constRank queryA,
        r.memo_uid = "memos/A" := by
  have hlist : bm25_retrieve (delete_memo stateWithA "memos/A").1 constRank queryA
      = [resultOfNode "bm25" (nodeA, 1)] := rfl
  refine ⟨rfl, by decide, ⟨resultOfNode "bm25" (nodeA, 1), ?_, rfl⟩⟩
  rw [hlist]
  exact List.mem_singleton.mpr rfl

/-- C2 (amended): after `delete_memo(uid)` no result of the strategies
backed only by the vector stores (text, image, vector, hybrid, rrf,
weighted) carries the deleted `memo_uid` (given wellformed stores and
sound store rankings), but the BM25 corpus is left untouched by the
deletion, so the bm25-backed strategies (bm25, bm25_vector,
bm25_vector_alpha, adaptive) may keep returning the memo until the BM25
index is rebuilt. -/
theorem C2_delete_removes_from_vector_strategies (s : IndexState) (uid : String)
    (rT rI : RankFn) (k tw iw : ℚ) (q : RetrievalQuery)
    (hwf : StoreWF s uid) (hsT : SoundRank rT) (hsI : SoundRank rI) :
    (∀ r ∈ text_retrieve (delete_memo s uid).1 rT q, r.memo_uid ≠ uid)
    ∧ (∀ r ∈ image_retrieve (delete_memo s uid).1 rI q, r.memo_uid ≠ uid)
    ∧ (∀ r ∈ vector_retrieve (delete_memo s uid).1 rT rI q, r.memo_uid ≠ uid)
    ∧ (∀ r ∈ hybrid_retrieve (delete_memo s uid).1 rT rI q, r.memo_uid ≠ uid)
    ∧ (∀ r ∈ rrf_retrieve (delete_memo s uid).1 rT rI k tw iw q, r.memo_uid ≠ uid)
    ∧ (∀ r ∈ weighted_retrieve (delete_memo s uid).1 rT rI tw iw q, r.memo_uid ≠ uid)
    ∧ (delete_memo s uid).1.bm25Nodes = s.bm25Nodes := by
  have htext : ∀ (q' : RetrievalQuery) (r : RetrievalResult),
      r ∈ text_retrieve (delete_memo s uid).1 rT q' → r.memo_uid ≠ uid := by
    intro q' r hr
    rcases mem_text_retrieve _ rT q' r hsT hr with ⟨e, he, hme⟩
    rw [hme]
    exact delete_cleans_text s uid hwf e he
  have himage : ∀ (q' : RetrievalQuery) (r : RetrievalResult),
      r ∈ image_retrieve (delete_memo s uid).1 rI q' → r.memo_uid ≠ uid := by
    intro q' r hr
    rcases mem_image_retrieve _ rI q' r hsI hr with ⟨e, he, hme⟩
    rw [hme]
    exact delete_cleans_image s uid hwf e he
  refine ⟨htext q, himage q, ?_, ?_, ?_, ?_, ?_⟩
  · intro r hr
    unfold vector_retrieve at hr
    have h1 := mem_deduplicate_by_memo r _ (List.take_subset q.top_k _ hr)
    unfold sortByScoreDesc at h1
    rcases List.mem_append.mp (List.mem_mergeSort.mp h1) with h2 | h2
    · exact htext _ r h2
    · exact himage _ r h2
  · intro r hr
    unfold hybrid_retrieve at hr
    have h1 := mem_deduplicate_by_memo r _ (List.take_subset q.top_k _ hr)
    have h2 := (List.mem_filter.mp h1).1
    unfold sortByScoreDesc at h2
    rcases List.mem_append.mp (List.mem_mergeSort.mp h2) with h3 | h3
    · exact htext _ r h3
    · exact himage _ r h3
  · intro r hr
    unfold rrf_retrieve at hr
    have h2 := mem_of_mem_minscore_take _ _ _ r hr
    rcases mem_rrf_fusion _ _ r h2 with ⟨r0, hr0mem, huid⟩
    rw [huid]
    simp only [List.flatMap_cons, List.flatMap_nil, List.append_nil,
      List.mem_append] at hr0mem
    rcases hr0mem with h3 | h3
    · exact htext _ r0 h3
    · exact himage _ r0 h3
  · intro r hr
    unfold weighted_retrieve at hr
    have h2 := mem_of_mem_minscore_take _ _ _ r hr
    rcases mem_weighted_fusion _ _ _ _ r h2 with ⟨r0, hr0mem, huid⟩
    rw [huid]
    rcases hr0mem with h3 | h3
    · rcases mem_normalize_scores _ r0 h3 with ⟨r1, hr1, huid2⟩
      rw [huid2]
      exact htext _ r1 hr1
    · rcases mem_normalize_scores _ r0 h3 with ⟨r1, hr1, huid2⟩
      rw [huid2]
      exact himage _ r1 hr1
  · unfold delete_memo
    rcases s.memo_vector_map.lookup uid with _ | ent <;> rfl

/-- C2 witness: the amended theorem applied at a concrete state, with the
source's default fusion parameters. -/
theorem C2_delete_removes_witness :
    (StoreWF stateWithA "memos/A" ∧ SoundRank constRank)
    ∧ ((∀ r ∈ text_retrieve (delete_memo stateWithA "memos/A").1 constRank queryA,
          r.memo_uid ≠ "memos/A")
      ∧ (∀ r ∈ image_retrieve (delete_memo stateWithA "memos/A").1 constRank queryA,
          r.memo_uid ≠ "memos/A")
      ∧ (∀ r ∈ vector_retrieve (delete_memo stateWithA "memos/A").1 constRank constRank queryA,
          r.memo_uid ≠ "memos/A")
      ∧ (∀ r ∈ hybrid_retrieve (delete_memo stateWithA "memos/A").1 constRank constRank queryA,
          r.memo_uid ≠ "memos/A")
      ∧ (∀ r ∈ rrf_retrieve (delete_memo stateWithA "memos/A").1 constRank constRank
            60 ((7 : ℚ)/10) ((3 : ℚ)/10) queryA,
          r.memo_uid ≠ "memos/A")
      ∧ (∀ r ∈ weighted_retrieve (delete_memo stateWithA "memos/A").1 constRank constRank
            ((7 : ℚ)/10) ((3 : ℚ)/10) queryA,
          r.memo_uid ≠ "memos/A")
      ∧ (delete_memo stateWithA "memos/A").1.bm25Nodes = stateWithA.bm25Nodes) := by
  have hwf : StoreWF stateWithA "memos/A" := by
    constructor
    · intro e he hm
      rw [show stateWithA.textStore = [nodeA] from rfl, List.mem_singleton] at he
      subst he
      exact ⟨{ text := ["memo:memos/A"], image := [] }, rfl, by decide⟩
    · intro e he hm
      exact absurd he (by simp [stateWithA])
  exact ⟨⟨hwf, soundRank_constRank⟩,
    C2_delete_removes_from_vector_strategies stateWithA "memos/A" constRank constRank
      60 ((7 : ℚ)/10) ((3 : ℚ)/10) queryA hwf soundRank_constRank soundRank_constRank⟩

/-- C6: in both RRF implementations a `memo_uid` appearing at 0-based rank
`r` in an input list of weight `w` contributes `w * 1/(k + r + 1)` to its
fused score, contributions are summed across lists and occurrences, the
fused result keeps the content and metadata of the uid's first-seen
appearance, the output is sorted by fused score descending with at most
one entry per `memo_uid`, and the RRF constant defaults to 60. -/
theorem C6_rrf_fusion_spec (k : ℚ) (lists : List (List RetrievalResult × ℚ))
    (uid : String) (r0 : RetrievalResult)
    (h1 : uid ≠ "") (h2 : rrfFirstSeen lists uid = some r0) :
    (∃ fr ∈ rrf_fusion k lists,
        fr.memo_uid = uid ∧ fr.score = rrfClaimScore k lists uid
        ∧ fr.content = r0.content ∧ fr.metadata = r0.metadata)
    ∧ (∃ fr ∈ rrf_fusion_bm25vec k lists,
        fr.memo_uid = uid ∧ fr.score = rrfClaimScore k lists uid
        ∧ fr.content = r0.content ∧ fr.metadata = r0.metadata
        ∧ fr.source = "fusion")
    ∧ SortedDesc (rrf_fusion k lists)
    ∧ SortedDesc (rrf_fusion_bm25vec k lists)
    ∧ ((rrf_fusion k lists).map (fun r => r.memo_uid)).Nodup
    ∧ ((rrf_fusion_bm25vec k lists).map (fun r => r.memo_uid)).Nodup
    ∧ rrfDefaultK = 60 := by
  have hmem := rrfState_mem_keys k lists uid r0 h1 h2
  have hdoc : (rrfState k lists).2.lookup uid = some r0 := by
    rw [rrfState_docs_lookup k lists uid h1]
    exact h2
  have hr0uid : r0.memo_uid = uid := by
    have := List.find?_some h2
    simpa using this
  have hk : ∀ u ∈ (rrfState k lists).1.map Prod.fst,
      ∃ r, (rrfState k lists).2.lookup u = some r ∧ r.memo_uid = u := by
    intro u hu
    exact rrfState_entry k lists u (keys_rrfState_ne k lists u hu) hu
  refine ⟨?_, ?_, sortedDesc_rrf_fusion k lists, sortedDesc_rrf_fusion_bm25vec k lists,
    ?_, ?_, rfl⟩
  · rcases mem_finalizeFusion_of_key (rrfState k lists).1 (rrfState k lists).2 none
        uid r0 hmem hdoc with ⟨fr, hfr, hm, hs, hc, hmd, _⟩
    exact ⟨fr, hfr, by rw [hm, hr0uid], by rw [hs, rrfState_score k lists uid h1],
      hc, hmd⟩
  · rcases mem_finalizeFusion_of_key (rrfState k lists).1 (rrfState k lists).2
        (some "fusion") uid r0 hmem hdoc with ⟨fr, hfr, hm, hs, hc, hmd, hsrc⟩
    exact ⟨fr, hfr, by rw [hm, hr0uid], by rw [hs, rrfState_score k lists uid h1],
      hc, hmd, hsrc⟩
  · exact nodup_uids_finalizeFusion _ _ _ (nodup_keys_rrfState k lists) hk
  · exact nodup_uids_finalizeFusion _ _ _ (nodup_keys_rrfState k lists) hk

/-- C6 witness: the spec's S5 lists, fused with the default constant. -/
theorem C6_rrf_fusion_witness :
    (("X" : String) ≠ "" ∧ rrfFirstSeen c6lists "X" = some resX)
    ∧ (∃ fr ∈ rrf_fusion 60 c6lists,
        fr.memo_uid = "X" ∧ fr.score = rrfClaimScore 60 c6lists "X"
        ∧ fr.content = resX.content ∧ fr.metadata = resX.metadata) :=
  ⟨⟨by decide, rfl⟩, (C6_rrf_fusion_spec 60 c6lists "X" resX (by decide) rfl).1⟩

end AnyMem
